import Mathlib

/-!
Verification of the iterative Towers of Hanoi solver (`HanoiTowers.cpp`).

The C++ program works on `std::array<std::list<int>, 3>`; the front of each
list is the top of the peg.  We embed the program shallowly:

* `Move` mirrors the C++ `Move(Tower&, Tower&)`: it returns the success flag
  together with the (possibly updated) two pegs, so that the "no state is
  modified on failure" behaviour is visible in the model.
* The guarded candidate attempts `previous != src && Move(tower[src], tower[dst])`
  appearing in `Odd`, `Even` and `Hanoi` are captured by `tryMove`; a whole
  cascade of `if`s (which applies the first succeeding candidate) is
  captured by `firstMove` over the ordered candidate list.
* The inner `while(1)` loops of `Odd` / `Even` and the outer `while` loop of
  `Hanoi` have no structural termination measure in the source, so they are
  modelled with explicit fuel; the theorems show that enough fuel makes the
  run return `some` result, which is the termination statement.
-/

namespace HanoiTowers

/-- `using Tower = std::list<int>;` — the head of the list is the top disk. -/
abbrev Tower := List Nat

/-- `InitTower`: pushes `1, 2, …, disks_count` to the back, so the resulting
peg is `[1, 2, …, disks_count]` with the smallest disk on top. -/
def InitTower (disks_count : Nat) : Tower :=
  List.range' 1 disks_count

/-- `using HanoiTower = std::array<Tower, 3>;` -/
structure HanoiTower where
  t0 : Tower
  t1 : Tower
  t2 : Tower
deriving DecidableEq, Repr

/-- `Move(Tower& from, Tower& to)` from the source, returned as
`(succeeded, from after the call, to after the call)`:
* an empty source fails;
* with a non-empty destination, equal parity of the two tops fails
  ("odd cannot go on another odd", "even cannot go on another even");
* otherwise the move happens iff the destination is empty or the source top
  is strictly smaller than the destination top. -/
def Move (fr toT : Tower) : Bool × Tower × Tower :=
  match fr, toT with
  | [], toT => (false, [], toT)
  | f :: fs, [] => (true, fs, [f])
  | f :: fs, t :: ts =>
    if f % 2 = t % 2 then (false, f :: fs, t :: ts)
    else if f < t then (true, fs, f :: t :: ts)
    else (false, f :: fs, t :: ts)

/-- `tower[i]` for `i = 0, 1, 2`. -/
def getT (t : HanoiTower) (i : Nat) : Tower :=
  match i with
  | 0 => t.t0
  | 1 => t.t1
  | _ => t.t2

/-- Replace `tower[i]`. -/
def setT (t : HanoiTower) (i : Nat) (l : Tower) : HanoiTower :=
  match i with
  | 0 => { t with t0 := l }
  | 1 => { t with t1 := l }
  | _ => { t with t2 := l }

/-- One guarded candidate attempt `previous != src && Move(tower[src], tower[dst])`.
Returns the updated board on success. -/
def tryMove (t : HanoiTower) (previous : Nat) (src dst : Nat) : Option HanoiTower :=
  if previous = src then none
  else
    match Move (getT t src) (getT t dst) with
    | (true, fr, toT) => some (setT (setT t src fr) dst toT)
    | (false, _, _) => none

/-- A cascade of guarded candidate attempts: the first succeeding candidate is
applied; its `(src, dst)` pair is reported together with the new board. -/
def firstMove (cands : List (Nat × Nat)) (t : HanoiTower) (previous : Nat) :
    Option (HanoiTower × Nat × Nat) :=
  match cands with
  | [] => none
  | (s, d) :: rest =>
    match tryMove t previous s d with
    | some t' => some (t', s, d)
    | none => firstMove rest t previous

/-- Candidate order of the forward sweep in `Odd`: (0→2), (0→1), (1→2). -/
def oddFwd : List (Nat × Nat) := [(0, 2), (0, 1), (1, 2)]

/-- Candidate order of the forward sweep in `Even`: (0→1), (0→2), (1→2). -/
def evenFwd : List (Nat × Nat) := [(0, 1), (0, 2), (1, 2)]

/-- Candidate order of the backward sweep in `Hanoi`: (2→0), (2→1), (1→0). -/
def backCands : List (Nat × Nat) := [(2, 0), (2, 1), (1, 0)]

/-- The inner `while(1)` loop of `Odd` / `Even`: repeatedly apply the first
succeeding forward candidate (updating `previous` to the destination and
incrementing `moves`), and stop when a full pass produces no move.
Fuel bounds the number of passes. -/
def phaseRun (cands : List (Nat × Nat)) :
    Nat → HanoiTower → Nat → Nat → Option (HanoiTower × Nat × Nat)
  | 0, _, _, _ => none
  | fuel + 1, t, previous, moves =>
    match firstMove cands t previous with
    | some (t', _, d) => phaseRun cands fuel t' d (moves + 1)
    | none => some (t, previous, moves)

/-- The function `Odd(HanoiTower&, int&, int&)` (forward sweep for odd `N`). -/
def Odd : Nat → HanoiTower → Nat → Nat → Option (HanoiTower × Nat × Nat) :=
  phaseRun oddFwd

/-- The function `Even(HanoiTower&, int&, int&)` (forward sweep for even `N`). -/
def Even : Nat → HanoiTower → Nat → Nat → Option (HanoiTower × Nat × Nat) :=
  phaseRun evenFwd

/-- The outer `while (tower[2].size() != disks_count)` loop of `Hanoi`:
each iteration runs the forward phase to exhaustion and then applies at most
one backward candidate.  `innerFuel` bounds the passes of each forward phase,
the first fuel argument bounds the outer iterations. -/
def hanoiLoop (cands : List (Nat × Nat)) (innerFuel : Nat) :
    Nat → Nat → HanoiTower → Nat → Nat → Option (HanoiTower × Nat)
  | 0, _, _, _, _ => none
  | fuel + 1, disks_count, t, previous, moves =>
    if t.t2.length = disks_count then some (t, moves)
    else
      match phaseRun cands innerFuel t previous moves with
      | none => none
      | some (t', previous', moves') =>
        match firstMove backCands t' previous' with
        | some (t'', _, d) => hanoiLoop cands innerFuel fuel disks_count t'' d (moves' + 1)
        | none => hanoiLoop cands innerFuel fuel disks_count t' previous' moves'

/-- `Hanoi(HanoiTower&)`: reads `disks_count` from `tower[0].size()`, starts
with `moves = 0`, `previous = 2`, and selects the forward order by the parity
of the disk count.  Returns the final board and the move counter. -/
def Hanoi (outerFuel innerFuel : Nat) (t : HanoiTower) : Option (HanoiTower × Nat) :=
  let disks_count := t.t0.length
  if disks_count % 2 = 1 then
    hanoiLoop oddFwd innerFuel outerFuel disks_count t 2 0
  else
    hanoiLoop evenFwd innerFuel outerFuel disks_count t 2 0

/-- The full candidate order seen by a run with odd `N`: one outer iteration
tries the forward candidates first and then the backward ones. -/
def ordO : List (Nat × Nat) := oddFwd ++ backCands

/-- The full candidate order seen by a run with even `N`. -/
def ordE : List (Nat × Nat) := evenFwd ++ backCands

/-- One successful move of the driver, flattened: after every successful move
(in either sweep) control returns to the top of the forward candidate list,
so the move performed next is always the first succeeding candidate of the
concatenated list.  The state is (board, previous); the chosen pair is
reported. -/
def stepSt (cands : List (Nat × Nat)) (s : HanoiTower × Nat) :
    Option ((HanoiTower × Nat) × Nat × Nat) :=
  match firstMove cands s.1 s.2 with
  | some (t', sd) => some ((t', sd.2), sd)
  | none => none

/-- `iterSt cands j s` performs exactly `j` successful moves starting from `s`
(`none` if the driver gets stuck earlier). -/
def iterSt (cands : List (Nat × Nat)) : Nat → HanoiTower × Nat → Option (HanoiTower × Nat)
  | 0, s => some s
  | j + 1, s =>
    match stepSt cands s with
    | some (s', _) => iterSt cands j s'
    | none => none

/-- The line printed by `Hanoi` at the end of the run. -/
def outputLine (disks_count moves : Nat) : String :=
  toString disks_count ++ " disks done in " ++ toString moves ++ " moves"

/-- `DisksCount(argc, argv)`: `none` models a missing argument (`argc < 2`),
`some z` models an argument that `std::stoi` parsed as `z`.  Returns the disk
count together with two flags: whether the "default / at least one disk"
notice was printed and whether the "large number of disks" warning was
printed. -/
def DisksCount (arg : Option Int) : Nat × Bool × Bool :=
  match arg with
  | none => (3, true, false)
  | some z =>
    let d := z.natAbs
    let c := if d < 1 then 3 else d
    (c, decide (d < 1), decide (25 < c))

/-- The initial board of `main`: `{ InitTower(disks_count), {}, {} }`. -/
def initBoard (disks_count : Nat) : HanoiTower :=
  ⟨InitTower disks_count, [], []⟩

/-- Trace-instrumented variant of `phaseRun`: identical control flow, but
also records the `(src, dst)` pair of every successful move. -/
def phaseRunTr (cands : List (Nat × Nat)) :
    Nat → HanoiTower → Nat → Nat → List (Nat × Nat) →
    Option (HanoiTower × Nat × Nat × List (Nat × Nat))
  | 0, _, _, _, _ => none
  | fuel + 1, t, previous, moves, tr =>
    match firstMove cands t previous with
    | some (t', s, d) => phaseRunTr cands fuel t' d (moves + 1) (tr ++ [(s, d)])
    | none => some (t, previous, moves, tr)

/-- Trace-instrumented variant of `hanoiLoop`. -/
def hanoiLoopTr (cands : List (Nat × Nat)) (innerFuel : Nat) :
    Nat → Nat → HanoiTower → Nat → Nat → List (Nat × Nat) →
    Option (HanoiTower × Nat × List (Nat × Nat))
  | 0, _, _, _, _, _ => none
  | fuel + 1, disks_count, t, previous, moves, tr =>
    if t.t2.length = disks_count then some (t, moves, tr)
    else
      match phaseRunTr cands innerFuel t previous moves tr with
      | none => none
      | some (t', previous', moves', tr') =>
        match firstMove backCands t' previous' with
        | some (t'', s, d) =>
            hanoiLoopTr cands innerFuel fuel disks_count t'' d (moves' + 1) (tr' ++ [(s, d)])
        | none => hanoiLoopTr cands innerFuel fuel disks_count t' previous' moves' tr'

/-- Trace-instrumented variant of `Hanoi`. -/
def HanoiTr (outerFuel innerFuel : Nat) (t : HanoiTower) :
    Option (HanoiTower × Nat × List (Nat × Nat)) :=
  let disks_count := t.t0.length
  if disks_count % 2 = 1 then
    hanoiLoopTr oddFwd innerFuel outerFuel disks_count t 2 0 []
  else
    hanoiLoopTr evenFwd innerFuel outerFuel disks_count t 2 0 []

/-- A peg read front-to-back (top-to-bottom) is strictly increasing. -/
def Ascending (l : Tower) : Prop :=
  List.Chain' (fun x y => x < y) l

/-- A peg is strictly increasing with alternating parity (adjacent disks sum
to an odd number).  This holds for every peg of every reachable board because
`Move` only puts a disk on a strictly larger disk of opposite parity. -/
def AltAsc (l : Tower) : Prop :=
  List.Chain' (fun x y => x < y ∧ (x + y) % 2 = 1) l

/-- The multiset of all disks on the board. -/
def diskMultiset (t : HanoiTower) : Multiset Nat :=
  (t.t0 : Multiset Nat) + (t.t1 : Multiset Nat) + (t.t2 : Multiset Nat)

/-- Builds a board from role-indexed pegs: peg `a` (source of the sub-run)
holds `Pa`, the spare `3 - a - c` holds `Pb`, and peg `c` (target) holds
`Pc`. -/
def roleBoard (a c : Nat) (Pa Pb Pc : Tower) : HanoiTower :=
  setT (setT (setT ⟨[], [], []⟩ a Pa) (3 - a - c) Pb) c Pc

/-- Context invariant of the sub-run lemma when the remembered index `e`
equals the target `c`: facts about the stacks `Ka`, `Kb`, `Kc` of disks
sitting (on the source, spare and target pegs) below the disks the sub-run
moves.  Derived by closing the invariant under the recursive decomposition
of the run. -/
def PhiC (a c : Nat) (Ka Kb Kc : Tower) : Prop :=
  match a, c with
  | 0, 2 => (Kc = [] → Kb = []) ∧ (Kb ≠ [] → Kc ≠ [] ∧ Kc.headI < Kb.headI)
  | 0, 1 => Kc ≠ [] ∧ (Kb ≠ [] → Kc.headI < Kb.headI) ∧ Ka ≠ []
  | 1, 2 => Kc ≠ [] ∧ (Kb ≠ [] → Kc.headI < Kb.headI)
  | 2, 1 => Kc ≠ [] ∧ Kb ≠ [] ∧ Kc.headI < Kb.headI
  | 1, 0 => Kc ≠ [] ∧ Kb ≠ [] ∧ Kc.headI < Kb.headI ∧ Ka ≠ []
  | 2, 0 => Kc ≠ [] ∧ Kb ≠ [] ∧ Kc.headI < Kb.headI ∧ Ka ≠ []
  | _, _ => True

/-- Context invariant of the sub-run lemma when the remembered index `e`
equals the spare peg `3 - a - c`. -/
def PhiB (a c : Nat) (Ka Kb Kc : Tower) : Prop :=
  match a, c with
  | 0, 2 => Kb ≠ [] ∧ (Kc ≠ [] → Kb.headI < Kc.headI)
  | 0, 1 => (Kc ≠ [] → Kb ≠ [] ∧ Kb.headI < Kc.headI) ∧ Ka ≠ []
  | 1, 2 => Kc ≠ [] ∧ Kb ≠ [] ∧ Kb.headI < Kc.headI
  | 2, 1 => Kb ≠ [] ∧ Kc ≠ [] ∧ Kb.headI < Kc.headI
  | 2, 0 => Kb ≠ [] ∧ Kc ≠ [] ∧ Kb.headI < Kc.headI ∧ Ka ≠ []
  | 1, 0 => Kb ≠ [] ∧ (Kc ≠ [] → Kb.headI < Kc.headI) ∧ Ka ≠ []
  | _, _ => True

/-- Combined context invariant, selected by whether `e` is the target. -/
def Phi (a c e : Nat) (Ka Kb Kc : Tower) : Prop :=
  if e = c then PhiC a c Ka Kb Kc else PhiB a c Ka Kb Kc

/-- Precondition of the sub-run lemma.  `par` is `1` for the odd candidate
order and `0` for the even one; the sub-run moves disks `1 … k` from peg `a`
to peg `c` over the contexts `Ka`, `Kb`, `Kc`, starting with last-moved
index `e`. -/
structure Pre (par k a c : Nat) (Ka Kb Kc : Tower) (e : Nat) : Prop where
  hk : 1 ≤ k
  ha : a < 3
  hc : c < 3
  hac : a ≠ c
  hdir : if k % 2 = par then c = (a + 2) % 3 else c = (a + 1) % 3
  hKaG : ∀ x ∈ Ka, k < x
  hKbG : ∀ x ∈ Kb, k < x
  hKcG : ∀ x ∈ Kc, k < x
  hChA : AltAsc (List.range' 1 k ++ Ka)
  hChB : AltAsc Kb
  hChC : AltAsc Kc
  hPb : Kb ≠ [] → Kb.headI % 2 = k % 2
  hPc : Kc ≠ [] → (Kc.headI + k) % 2 = 1
  he : e = 3 - a - c ∨ e = c
  hPhi : Phi a c e Ka Kb Kc

/-- Fuel that is always sufficient for a run with `N` disks. -/
def hanoiFuel (N : Nat) : Nat :=
  2 ^ N + 1

/-- The flattened candidate order used by the run: `par` is the parity of the
disk count (`1` selects the odd forward order). -/
def ordOf (par : Nat) : List (Nat × Nat) :=
  if par = 1 then ordO else ordE

/-! ### Lemmas about `Move` -/

theorem Move_succeeds_iff (fr toT : Tower) :
    (Move fr toT).1 = true ↔
      fr ≠ [] ∧ (toT ≠ [] → fr.headI < toT.headI ∧ fr.headI % 2 ≠ toT.headI % 2) := by
  match fr, toT with
  | [], toT => simp [Move]
  | f :: fs, [] => simp [Move]
  | f :: fs, t :: ts =>
    simp only [Move, List.headI, ne_eq, List.cons_ne_nil, not_false_eq_true, true_and,
      forall_const]
    split_ifs with h1 h2 <;> simp <;> omega

theorem Move_success_result (fr toT : Tower) (h : (Move fr toT).1 = true) :
    Move fr toT = (true, fr.tail, fr.headI :: toT) := by
  match fr, toT with
  | [], toT => simp [Move] at h
  | f :: fs, [] => simp [Move]
  | f :: fs, t :: ts =>
    simp only [Move] at h ⊢
    split_ifs at h ⊢ <;> simp_all

theorem Move_failure_result (fr toT : Tower) (h : (Move fr toT).1 = false) :
    Move fr toT = (false, fr, toT) := by
  match fr, toT with
  | [], toT => simp [Move]
  | f :: fs, [] => simp [Move] at h
  | f :: fs, t :: ts =>
    simp only [Move] at h ⊢
    split_ifs at h ⊢ <;> simp_all

/-! ### Lemmas about `getT` / `setT` -/

theorem getT_setT_self (t : HanoiTower) (i : Nat) (l : Tower) :
    getT (setT t i l) i = l := by
  rcases i with _ | _ | i <;> rfl

theorem getT_setT_of_ne (t : HanoiTower) (l : Tower) {i j : Nat} (hi : i < 3) (hj : j < 3)
    (h : i ≠ j) : getT (setT t i l) j = getT t j := by
  interval_cases i <;> interval_cases j <;> first | rfl | exact absurd rfl h

/-! ### Lemmas about `tryMove`, `firstMove` and `iterSt` -/

theorem tryMove_guard (t : HanoiTower) (p d : Nat) : tryMove t p p d = none := by
  simp [tryMove]

theorem tryMove_some_spec {t : HanoiTower} {p g d : Nat} {t' : HanoiTower}
    (h : tryMove t p g d = some t') :
    p ≠ g ∧ (Move (getT t g) (getT t d)).1 = true ∧
      t' = setT (setT t g (Move (getT t g) (getT t d)).2.1) d (Move (getT t g) (getT t d)).2.2 := by
  by_cases hp : p = g
  · simp [tryMove, hp] at h
  · refine ⟨hp, ?_⟩
    rw [tryMove, if_neg hp] at h
    rcases hM : Move (getT t g) (getT t d) with ⟨b, fr, toT⟩
    rw [hM] at h
    cases b
    · simp at h
    · simp at h
      exact ⟨rfl, h.symm⟩

theorem firstMove_some_spec {cands : List (Nat × Nat)} {t : HanoiTower} {p : Nat}
    {t' : HanoiTower} {g d : Nat} (h : firstMove cands t p = some (t', g, d)) :
    (g, d) ∈ cands ∧ p ≠ g ∧ (Move (getT t g) (getT t d)).1 = true ∧
      t' = setT (setT t g (Move (getT t g) (getT t d)).2.1) d (Move (getT t g) (getT t d)).2.2 := by
  induction cands with
  | nil => simp [firstMove] at h
  | cons gd rest ih =>
    rcases gd with ⟨g0, d0⟩
    rw [firstMove] at h
    rcases hT : tryMove t p g0 d0 with _ | t0
    · rw [hT] at h
      have := ih h
      exact ⟨List.mem_cons_of_mem _ this.1, this.2⟩
    · rw [hT] at h
      simp only [Option.some.injEq, Prod.mk.injEq] at h
      obtain ⟨rfl, rfl, rfl⟩ := h
      have hs := tryMove_some_spec hT
      exact ⟨List.mem_cons_self _ _, hs⟩

theorem firstMove_append (xs ys : List (Nat × Nat)) (t : HanoiTower) (p : Nat) :
    firstMove (xs ++ ys) t p =
      match firstMove xs t p with
      | some r => some r
      | none => firstMove ys t p := by
  induction xs with
  | nil => rfl
  | cons gd rest ih =>
    rcases gd with ⟨g, d⟩
    simp only [List.cons_append, firstMove]
    cases tryMove t p g d <;> simp [ih]

theorem iterSt_add (cands : List (Nat × Nat)) (i j : Nat) (s : HanoiTower × Nat) :
    iterSt cands (i + j) s = (iterSt cands i s).bind (fun s' => iterSt cands j s') := by
  induction i generalizing s with
  | zero => simp [iterSt]
  | succ i ih =>
    have hrw : i + 1 + j = (i + j) + 1 := by omega
    rw [hrw]
    simp only [iterSt]
    rcases stepSt cands s with _ | ⟨s', m⟩
    · simp
    · simp [ih]

theorem stepSt_some_spec {cands : List (Nat × Nat)} {s s' : HanoiTower × Nat} {m : Nat × Nat}
    (h : stepSt cands s = some (s', m)) :
    firstMove cands s.1 s.2 = some (s'.1, m) ∧ s'.2 = m.2 := by
  rw [stepSt] at h
  rcases hF : firstMove cands s.1 s.2 with _ | ⟨t', g, d⟩ <;> rw [hF] at h
  · simp at h
  · simp only [Option.some.injEq, Prod.ext_iff] at h
    obtain ⟨⟨e1, e2⟩, e3, e4⟩ := h
    have hm : m = (g, d) := by
      rcases m with ⟨m1, m2⟩
      simp only at e3 e4
      rw [← e3, ← e4]
    subst hm
    rw [e1]
    exact ⟨rfl, e2.symm⟩

/-! ### Invariant preservation: sortedness and disk conservation -/

theorem altAsc_ascending {l : Tower} (h : AltAsc l) : Ascending l :=
  List.Chain'.imp (fun _ _ hab => hab.1) h

theorem altAsc_range' (s n : Nat) : AltAsc (List.range' s n) := by
  induction n generalizing s with
  | zero => simp [AltAsc]
  | succ n ih =>
    rw [List.range'_succ, AltAsc, List.chain'_cons']
    refine ⟨?_, ih (s + 1)⟩
    intro y hy
    cases n with
    | zero => simp at hy
    | succ m =>
      rw [List.range'_succ] at hy
      simp only [List.head?_cons, Option.mem_def, Option.some.injEq] at hy
      subst hy
      exact ⟨by omega, by omega⟩

theorem move_shape {fr toT fr' toT' : Tower} (h : Move fr toT = (true, fr', toT')) :
    ∃ f fs, fr = f :: fs ∧ fr' = fs ∧ toT' = f :: toT ∧
      ∀ h2 ts, toT = h2 :: ts → f < h2 ∧ (f + h2) % 2 = 1 := by
  match fr, toT with
  | [], toT => simp [Move] at h
  | f :: fs, [] =>
    simp only [Move, Prod.mk.injEq, true_and] at h
    exact ⟨f, fs, rfl, h.1.symm, h.2.symm, by simp⟩
  | f :: fs, t :: ts =>
    simp only [Move] at h
    split_ifs at h with h1 h2
    · simp at h
    · simp only [Prod.mk.injEq, true_and] at h
      refine ⟨f, fs, rfl, h.1.symm, h.2.symm, ?_⟩
      intro h2' ts' he
      cases he
      exact ⟨h2, by omega⟩
    · simp at h

theorem altAsc_after_move {fr toT fr' toT' : Tower} (h : Move fr toT = (true, fr', toT'))
    (h1 : AltAsc fr) (h2 : AltAsc toT) : AltAsc fr' ∧ AltAsc toT' := by
  obtain ⟨f, fs, rfl, rfl, rfl, hR⟩ := move_shape h
  constructor
  · exact (List.chain'_cons'.mp h1).2
  · rw [AltAsc, List.chain'_cons']
    refine ⟨?_, h2⟩
    intro y hy
    cases toT with
    | nil => simp at hy
    | cons b l =>
      simp only [List.head?_cons, Option.mem_def, Option.some.injEq] at hy
      subst hy
      exact hR _ _ rfl

theorem stepSt_preserves {cands : List (Nat × Nat)}
    (hgood : ∀ gd ∈ cands, gd.1 < 3 ∧ gd.2 < 3 ∧ gd.1 ≠ gd.2)
    {s s' : HanoiTower × Nat} {m : Nat × Nat} (h : stepSt cands s = some (s', m)) :
    ((AltAsc s.1.t0 ∧ AltAsc s.1.t1 ∧ AltAsc s.1.t2) →
      (AltAsc s'.1.t0 ∧ AltAsc s'.1.t1 ∧ AltAsc s'.1.t2)) ∧
    diskMultiset s'.1 = diskMultiset s.1 := by
  obtain ⟨hF, hprev⟩ := stepSt_some_spec h
  obtain ⟨hmem, hpg, hsucc, hboard⟩ := firstMove_some_spec hF
  obtain ⟨hg3, hd3, hgd⟩ := hgood _ hmem
  rcases m with ⟨g, d⟩
  simp only at hg3 hd3 hgd
  rcases hM : Move (getT s.1 g) (getT s.1 d) with ⟨b, fr', toT'⟩
  rw [hM] at hboard hsucc
  simp only at hsucc hboard
  subst hsucc
  obtain ⟨f, fs, hfr, hfr', htoT', hR⟩ := move_shape hM
  subst hfr'
  have hgcase : (g = 0 ∧ d = 1) ∨ (g = 0 ∧ d = 2) ∨ (g = 1 ∧ d = 0) ∨ (g = 1 ∧ d = 2) ∨
      (g = 2 ∧ d = 0) ∨ (g = 2 ∧ d = 1) := by omega
  rcases hgcase with ⟨rfl, rfl⟩ | ⟨rfl, rfl⟩ | ⟨rfl, rfl⟩ | ⟨rfl, rfl⟩ | ⟨rfl, rfl⟩ | ⟨rfl, rfl⟩ <;>
    simp only [getT] at hfr htoT' hM <;>
    subst htoT' <;>
    rw [hboard] <;>
    constructor <;>
    [skip; skip; skip; skip; skip; skip; skip; skip; skip; skip; skip; skip] <;>
    first
      | (rintro ⟨a0, a1, a2⟩
         first
           | exact ⟨(altAsc_after_move hM a0 a1).1, (altAsc_after_move hM a0 a1).2, a2⟩
           | exact ⟨(altAsc_after_move hM a0 a2).1, a1, (altAsc_after_move hM a0 a2).2⟩
           | exact ⟨(altAsc_after_move hM a1 a0).2, (altAsc_after_move hM a1 a0).1, a2⟩
           | exact ⟨a0, (altAsc_after_move hM a1 a2).1, (altAsc_after_move hM a1 a2).2⟩
           | exact ⟨(altAsc_after_move hM a2 a0).2, a1, (altAsc_after_move hM a2 a0).1⟩
           | exact ⟨a0, (altAsc_after_move hM a2 a1).2, (altAsc_after_move hM a2 a1).1⟩)
      | (simp only [diskMultiset, setT]
         rw [hfr]
         simp [← Multiset.cons_coe, Multiset.add_cons, Multiset.cons_add])

theorem iterSt_valid {cands : List (Nat × Nat)}
    (hgood : ∀ gd ∈ cands, gd.1 < 3 ∧ gd.2 < 3 ∧ gd.1 ≠ gd.2)
    {j : Nat} {s s' : HanoiTower × Nat} (h : iterSt cands j s = some s')
    (hA : AltAsc s.1.t0 ∧ AltAsc s.1.t1 ∧ AltAsc s.1.t2) :
    (AltAsc s'.1.t0 ∧ AltAsc s'.1.t1 ∧ AltAsc s'.1.t2) ∧
      diskMultiset s'.1 = diskMultiset s.1 := by
  induction j generalizing s with
  | zero =>
    simp only [iterSt, Option.some.injEq] at h
    subst h
    exact ⟨hA, rfl⟩
  | succ j ih =>
    rw [iterSt] at h
    rcases hS : stepSt cands s with _ | ⟨s1, m⟩ <;> rw [hS] at h
    · simp at h
    · have hp := stepSt_preserves hgood hS
      have hrest := ih h (hp.1 hA)
      exact ⟨hrest.1, hrest.2.trans hp.2⟩

theorem goodCands_ordO : ∀ gd ∈ ordO, gd.1 < 3 ∧ gd.2 < 3 ∧ gd.1 ≠ gd.2 := by decide

theorem goodCands_ordE : ∀ gd ∈ ordE, gd.1 < 3 ∧ gd.2 < 3 ∧ gd.1 ≠ gd.2 := by decide

/-! ### Evaluation lemmas for single candidates -/

theorem Move_nil (toT : Tower) : Move [] toT = (false, [], toT) := rfl

theorem Move_to_nil (f : Nat) (fs : Tower) : Move (f :: fs) [] = (true, fs, [f]) := rfl

theorem Move_success_cons {f t : Nat} (fs ts : Tower) (hpar : (f + t) % 2 = 1) (hlt : f < t) :
    Move (f :: fs) (t :: ts) = (true, fs, f :: t :: ts) := by
  rw [Move, if_neg (by omega), if_pos hlt]

theorem Move_fail_parity {f t : Nat} (fs ts : Tower) (hpar : f % 2 = t % 2) :
    Move (f :: fs) (t :: ts) = (false, f :: fs, t :: ts) := by
  rw [Move, if_pos hpar]

theorem Move_fail_ge {f t : Nat} (fs ts : Tower) (hge : t ≤ f) :
    Move (f :: fs) (t :: ts) = (false, f :: fs, t :: ts) := by
  rw [Move]
  split_ifs with h1 h2
  · rfl
  · omega
  · rfl

theorem tryMove_fail {t : HanoiTower} {p s d : Nat} {fr toT : Tower}
    (h : Move (getT t s) (getT t d) = (false, fr, toT)) : tryMove t p s d = none := by
  by_cases hp : p = s
  · simp [tryMove, hp]
  · rw [tryMove, if_neg hp, h]

theorem tryMove_succ {t : HanoiTower} {p s d : Nat} {fr toT : Tower} (hp : p ≠ s)
    (h : Move (getT t s) (getT t d) = (true, fr, toT)) :
    tryMove t p s d = some (setT (setT t s fr) d toT) := by
  rw [tryMove, if_neg hp, h]

theorem firstMove_cons_none {g d : Nat} {rest : List (Nat × Nat)} {t : HanoiTower} {p : Nat}
    (h : tryMove t p g d = none) : firstMove ((g, d) :: rest) t p = firstMove rest t p := by
  rw [firstMove, h]

theorem firstMove_cons_some {g d : Nat} {rest : List (Nat × Nat)} {t : HanoiTower} {p : Nat}
    {t' : HanoiTower} (h : tryMove t p g d = some t') :
    firstMove ((g, d) :: rest) t p = some (t', g, d) := by
  rw [firstMove, h]

theorem ordO_eq : ordO = [(0, 2), (0, 1), (1, 2), (2, 0), (2, 1), (1, 0)] := rfl

theorem ordE_eq : ordE = [(0, 1), (0, 2), (1, 2), (2, 0), (2, 1), (1, 0)] := rfl

/-! ### Selection lemmas: which candidate the driver picks when moving disk
`K >= 2` from peg `a` to peg `c` (disks `1 ... K-1` are stacked on the spare
whose top is `1`, and `previous` is the spare index). -/

theorem Move_K_onto_Kc {K : Nat} {Kc : Tower} (Ka : Tower)
    (hKc : Kc = [] ∨ ((K + Kc.headI) % 2 = 1 ∧ K < Kc.headI)) :
    Move (K :: Ka) Kc = (true, Ka, K :: Kc) := by
  rcases hKc with rfl | ⟨hpar, hlt⟩
  · rfl
  · cases Kc with
    | nil => rfl
    | cons γ Kc' =>
      simp only [List.headI_cons] at hpar hlt
      exact Move_success_cons _ _ hpar hlt

theorem Move_fail_src_large {Kc : Tower} {t : Nat} (ts : Tower)
    (h : Kc = [] ∨ t ≤ Kc.headI) : Move Kc (t :: ts) = (false, Kc, t :: ts) := by
  cases Kc with
  | nil => rfl
  | cons γ Kc' =>
    simp only [List.headI_cons] at h
    refine Move_fail_ge _ _ ?_
    rcases h with h | h
    · simp at h
    · exact h

theorem selO02 (K : Nat) (Ka L Kc : Tower) (hK : 2 ≤ K)
    (hKc : Kc = [] ∨ ((K + Kc.headI) % 2 = 1 ∧ K < Kc.headI)) :
    firstMove ordO ⟨K :: Ka, 1 :: L, Kc⟩ 1 = some (⟨Ka, 1 :: L, K :: Kc⟩, 0, 2) := by
  have hs : tryMove (⟨K :: Ka, 1 :: L, Kc⟩ : HanoiTower) 1 0 2 =
      some ⟨Ka, 1 :: L, K :: Kc⟩ :=
    tryMove_succ (by omega) (Move_K_onto_Kc Ka hKc)
  rw [ordO_eq, firstMove_cons_some hs]

theorem selO01 (K : Nat) (Ka L Kc : Tower) (hK : 2 ≤ K)
    (hKc : Kc = [] ∨ ((K + Kc.headI) % 2 = 1 ∧ K < Kc.headI)) :
    firstMove ordO ⟨K :: Ka, Kc, 1 :: L⟩ 2 = some (⟨Ka, K :: Kc, 1 :: L⟩, 0, 1) := by
  have h1 : tryMove (⟨K :: Ka, Kc, 1 :: L⟩ : HanoiTower) 2 0 2 = none :=
    tryMove_fail (Move_fail_ge _ _ (by omega))
  have hs : tryMove (⟨K :: Ka, Kc, 1 :: L⟩ : HanoiTower) 2 0 1 =
      some ⟨Ka, K :: Kc, 1 :: L⟩ :=
    tryMove_succ (by omega) (Move_K_onto_Kc Ka hKc)
  rw [ordO_eq, firstMove_cons_none h1, firstMove_cons_some hs]

theorem selO12 (K : Nat) (Ka L Kc : Tower) (hK : 2 ≤ K)
    (hKc : Kc = [] ∨ ((K + Kc.headI) % 2 = 1 ∧ K < Kc.headI)) :
    firstMove ordO ⟨1 :: L, K :: Ka, Kc⟩ 0 = some (⟨1 :: L, Ka, K :: Kc⟩, 1, 2) := by
  have hs : tryMove (⟨1 :: L, K :: Ka, Kc⟩ : HanoiTower) 0 1 2 =
      some ⟨1 :: L, Ka, K :: Kc⟩ :=
    tryMove_succ (by omega) (Move_K_onto_Kc Ka hKc)
  rw [ordO_eq, firstMove_cons_none (tryMove_guard _ _ _),
    firstMove_cons_none (tryMove_guard _ _ _), firstMove_cons_some hs]

theorem selO20 (K : Nat) (Ka L Kc : Tower) (hK : 2 ≤ K)
    (hKc : Kc = [] ∨ ((K + Kc.headI) % 2 = 1 ∧ K < Kc.headI)) :
    firstMove ordO ⟨Kc, 1 :: L, K :: Ka⟩ 1 = some (⟨K :: Kc, 1 :: L, Ka⟩, 2, 0) := by
  have hm02 : Move Kc (K :: Ka) = (false, Kc, K :: Ka) :=
    Move_fail_src_large _ (by
      rcases hKc with rfl | ⟨_, hlt⟩
      · exact Or.inl rfl
      · exact Or.inr (by omega))
  have hm01 : Move Kc (1 :: L) = (false, Kc, 1 :: L) :=
    Move_fail_src_large _ (by
      rcases hKc with rfl | ⟨_, hlt⟩
      · exact Or.inl rfl
      · exact Or.inr (by omega))
  have h02 : tryMove (⟨Kc, 1 :: L, K :: Ka⟩ : HanoiTower) 1 0 2 = none := tryMove_fail hm02
  have h01 : tryMove (⟨Kc, 1 :: L, K :: Ka⟩ : HanoiTower) 1 0 1 = none := tryMove_fail hm01
  have hs : tryMove (⟨Kc, 1 :: L, K :: Ka⟩ : HanoiTower) 1 2 0 =
      some ⟨K :: Kc, 1 :: L, Ka⟩ :=
    tryMove_succ (by omega) (Move_K_onto_Kc Ka hKc)
  rw [ordO_eq, firstMove_cons_none h02, firstMove_cons_none h01,
    firstMove_cons_none (tryMove_guard _ _ _), firstMove_cons_some hs]

theorem selO21 (K : Nat) (Ka L Kc : Tower) (hK : 2 ≤ K)
    (hKc : Kc = [] ∨ ((K + Kc.headI) % 2 = 1 ∧ K < Kc.headI)) :
    firstMove ordO ⟨1 :: L, Kc, K :: Ka⟩ 0 = some (⟨1 :: L, K :: Kc, Ka⟩, 2, 1) := by
  have hm12 : Move Kc (K :: Ka) = (false, Kc, K :: Ka) :=
    Move_fail_src_large _ (by
      rcases hKc with rfl | ⟨_, hlt⟩
      · exact Or.inl rfl
      · exact Or.inr (by omega))
  have h12 : tryMove (⟨1 :: L, Kc, K :: Ka⟩ : HanoiTower) 0 1 2 = none := tryMove_fail hm12
  have h20 : tryMove (⟨1 :: L, Kc, K :: Ka⟩ : HanoiTower) 0 2 0 = none :=
    tryMove_fail (Move_fail_ge _ _ (by omega))
  have hs : tryMove (⟨1 :: L, Kc, K :: Ka⟩ : HanoiTower) 0 2 1 =
      some ⟨1 :: L, K :: Kc, Ka⟩ :=
    tryMove_succ (by omega) (Move_K_onto_Kc Ka hKc)
  rw [ordO_eq, firstMove_cons_none (tryMove_guard _ _ _),
    firstMove_cons_none (tryMove_guard _ _ _), firstMove_cons_none h12,
    firstMove_cons_none h20, firstMove_cons_some hs]

theorem selO10 (K : Nat) (Ka L Kc : Tower) (hK : 2 ≤ K)
    (hKc : Kc = [] ∨ ((K + Kc.headI) % 2 = 1 ∧ K < Kc.headI)) :
    firstMove ordO ⟨Kc, K :: Ka, 1 :: L⟩ 2 = some (⟨K :: Kc, Ka, 1 :: L⟩, 1, 0) := by
  have hm02 : Move Kc (1 :: L) = (false, Kc, 1 :: L) :=
    Move_fail_src_large _ (by
      rcases hKc with rfl | ⟨_, hlt⟩
      · exact Or.inl rfl
      · exact Or.inr (by omega))
  have hm01 : Move Kc (K :: Ka) = (false, Kc, K :: Ka) :=
    Move_fail_src_large _ (by
      rcases hKc with rfl | ⟨_, hlt⟩
      · exact Or.inl rfl
      · exact Or.inr (by omega))
  have h02 : tryMove (⟨Kc, K :: Ka, 1 :: L⟩ : HanoiTower) 2 0 2 = none := tryMove_fail hm02
  have h01 : tryMove (⟨Kc, K :: Ka, 1 :: L⟩ : HanoiTower) 2 0 1 = none := tryMove_fail hm01
  have h12 : tryMove (⟨Kc, K :: Ka, 1 :: L⟩ : HanoiTower) 2 1 2 = none :=
    tryMove_fail (Move_fail_ge _ _ (by omega))
  have hs : tryMove (⟨Kc, K :: Ka, 1 :: L⟩ : HanoiTower) 2 1 0 =
      some ⟨K :: Kc, Ka, 1 :: L⟩ :=
    tryMove_succ (by omega) (Move_K_onto_Kc Ka hKc)
  rw [ordO_eq, firstMove_cons_none h02, firstMove_cons_none h01, firstMove_cons_none h12,
    firstMove_cons_none (tryMove_guard _ _ _), firstMove_cons_none (tryMove_guard _ _ _),
    firstMove_cons_some hs]

theorem selE01 (K : Nat) (Ka L Kc : Tower) (hK : 2 ≤ K)
    (hKc : Kc = [] ∨ ((K + Kc.headI) % 2 = 1 ∧ K < Kc.headI)) :
    firstMove ordE ⟨K :: Ka, Kc, 1 :: L⟩ 2 = some (⟨Ka, K :: Kc, 1 :: L⟩, 0, 1) := by
  have hs : tryMove (⟨K :: Ka, Kc, 1 :: L⟩ : HanoiTower) 2 0 1 =
      some ⟨Ka, K :: Kc, 1 :: L⟩ :=
    tryMove_succ (by omega) (Move_K_onto_Kc Ka hKc)
  rw [ordE_eq, firstMove_cons_some hs]

theorem selE02 (K : Nat) (Ka L Kc : Tower) (hK : 2 ≤ K)
    (hKc : Kc = [] ∨ ((K + Kc.headI) % 2 = 1 ∧ K < Kc.headI)) :
    firstMove ordE ⟨K :: Ka, 1 :: L, Kc⟩ 1 = some (⟨Ka, 1 :: L, K :: Kc⟩, 0, 2) := by
  have h01 : tryMove (⟨K :: Ka, 1 :: L, Kc⟩ : HanoiTower) 1 0 1 = none :=
    tryMove_fail (Move_fail_ge _ _ (by omega))
  have hs : tryMove (⟨K :: Ka, 1 :: L, Kc⟩ : HanoiTower) 1 0 2 =
      some ⟨Ka, 1 :: L, K :: Kc⟩ :=
    tryMove_succ (by omega) (Move_K_onto_Kc Ka hKc)
  rw [ordE_eq, firstMove_cons_none h01, firstMove_cons_some hs]

theorem selE12 (K : Nat) (Ka L Kc : Tower) (hK : 2 ≤ K)
    (hKc : Kc = [] ∨ ((K + Kc.headI) % 2 = 1 ∧ K < Kc.headI)) :
    firstMove ordE ⟨1 :: L, K :: Ka, Kc⟩ 0 = some (⟨1 :: L, Ka, K :: Kc⟩, 1, 2) := by
  have hs : tryMove (⟨1 :: L, K :: Ka, Kc⟩ : HanoiTower) 0 1 2 =
      some ⟨1 :: L, Ka, K :: Kc⟩ :=
    tryMove_succ (by omega) (Move_K_onto_Kc Ka hKc)
  rw [ordE_eq, firstMove_cons_none (tryMove_guard _ _ _),
    firstMove_cons_none (tryMove_guard _ _ _), firstMove_cons_some hs]

theorem selE20 (K : Nat) (Ka L Kc : Tower) (hK : 2 ≤ K)
    (hKc : Kc = [] ∨ ((K + Kc.headI) % 2 = 1 ∧ K < Kc.headI)) :
    firstMove ordE ⟨Kc, 1 :: L, K :: Ka⟩ 1 = some (⟨K :: Kc, 1 :: L, Ka⟩, 2, 0) := by
  have hm01 : Move Kc (1 :: L) = (false, Kc, 1 :: L) :=
    Move_fail_src_large _ (by
      rcases hKc with rfl | ⟨_, hlt⟩
      · exact Or.inl rfl
      · exact Or.inr (by omega))
  have hm02 : Move Kc (K :: Ka) = (false, Kc, K :: Ka) :=
    Move_fail_src_large _ (by
      rcases hKc with rfl | ⟨_, hlt⟩
      · exact Or.inl rfl
      · exact Or.inr (by omega))
  have h01 : tryMove (⟨Kc, 1 :: L, K :: Ka⟩ : HanoiTower) 1 0 1 = none := tryMove_fail hm01
  have h02 : tryMove (⟨Kc, 1 :: L, K :: Ka⟩ : HanoiTower) 1 0 2 = none := tryMove_fail hm02
  have hs : tryMove (⟨Kc, 1 :: L, K :: Ka⟩ : HanoiTower) 1 2 0 =
      some ⟨K :: Kc, 1 :: L, Ka⟩ :=
    tryMove_succ (by omega) (Move_K_onto_Kc Ka hKc)
  rw [ordE_eq, firstMove_cons_none h01, firstMove_cons_none h02,
    firstMove_cons_none (tryMove_guard _ _ _), firstMove_cons_some hs]

theorem selE21 (K : Nat) (Ka L Kc : Tower) (hK : 2 ≤ K)
    (hKc : Kc = [] ∨ ((K + Kc.headI) % 2 = 1 ∧ K < Kc.headI)) :
    firstMove ordE ⟨1 :: L, Kc, K :: Ka⟩ 0 = some (⟨1 :: L, K :: Kc, Ka⟩, 2, 1) := by
  have hm12 : Move Kc (K :: Ka) = (false, Kc, K :: Ka) :=
    Move_fail_src_large _ (by
      rcases hKc with rfl | ⟨_, hlt⟩
      · exact Or.inl rfl
      · exact Or.inr (by omega))
  have h12 : tryMove (⟨1 :: L, Kc, K :: Ka⟩ : HanoiTower) 0 1 2 = none := tryMove_fail hm12
  have h20 : tryMove (⟨1 :: L, Kc, K :: Ka⟩ : HanoiTower) 0 2 0 = none :=
    tryMove_fail (Move_fail_ge _ _ (by omega))
  have hs : tryMove (⟨1 :: L, Kc, K :: Ka⟩ : HanoiTower) 0 2 1 =
      some ⟨1 :: L, K :: Kc, Ka⟩ :=
    tryMove_succ (by omega) (Move_K_onto_Kc Ka hKc)
  rw [ordE_eq, firstMove_cons_none (tryMove_guard _ _ _),
    firstMove_cons_none (tryMove_guard _ _ _), firstMove_cons_none h12,
    firstMove_cons_none h20, firstMove_cons_some hs]

theorem selE10 (K : Nat) (Ka L Kc : Tower) (hK : 2 ≤ K)
    (hKc : Kc = [] ∨ ((K + Kc.headI) % 2 = 1 ∧ K < Kc.headI)) :
    firstMove ordE ⟨Kc, K :: Ka, 1 :: L⟩ 2 = some (⟨K :: Kc, Ka, 1 :: L⟩, 1, 0) := by
  have hm01 : Move Kc (K :: Ka) = (false, Kc, K :: Ka) :=
    Move_fail_src_large _ (by
      rcases hKc with rfl | ⟨_, hlt⟩
      · exact Or.inl rfl
      · exact Or.inr (by omega))
  have hm02 : Move Kc (1 :: L) = (false, Kc, 1 :: L) :=
    Move_fail_src_large _ (by
      rcases hKc with rfl | ⟨_, hlt⟩
      · exact Or.inl rfl
      · exact Or.inr (by omega))
  have h01 : tryMove (⟨Kc, K :: Ka, 1 :: L⟩ : HanoiTower) 2 0 1 = none := tryMove_fail hm01
  have h02 : tryMove (⟨Kc, K :: Ka, 1 :: L⟩ : HanoiTower) 2 0 2 = none := tryMove_fail hm02
  have h12 : tryMove (⟨Kc, K :: Ka, 1 :: L⟩ : HanoiTower) 2 1 2 = none :=
    tryMove_fail (Move_fail_ge _ _ (by omega))
  have hs : tryMove (⟨Kc, K :: Ka, 1 :: L⟩ : HanoiTower) 2 1 0 =
      some ⟨K :: Kc, Ka, 1 :: L⟩ :=
    tryMove_succ (by omega) (Move_K_onto_Kc Ka hKc)
  rw [ordE_eq, firstMove_cons_none h01, firstMove_cons_none h02, firstMove_cons_none h12,
    firstMove_cons_none (tryMove_guard _ _ _), firstMove_cons_none (tryMove_guard _ _ _),
    firstMove_cons_some hs]

/-! ### Selection lemmas for moving disk 1 (the leaf moves).  The head of a
non-empty spare context is odd and greater than 1, the head of a non-empty
target context is even and greater than 1; the comparison hypotheses come
from the `Phi` invariant. -/

theorem leafO02 (Ka Kb Kc : Tower) (e : Nat) (he : e = 1 ∨ e = 2)
    (hKc : Kc = [] ∨ ((1 + Kc.headI) % 2 = 1 ∧ 1 < Kc.headI)) :
    firstMove ordO ⟨1 :: Ka, Kb, Kc⟩ e = some (⟨Ka, Kb, 1 :: Kc⟩, 0, 2) := by
  have hs : tryMove (⟨1 :: Ka, Kb, Kc⟩ : HanoiTower) e 0 2 = some ⟨Ka, Kb, 1 :: Kc⟩ :=
    tryMove_succ (by omega) (Move_K_onto_Kc Ka hKc)
  rw [ordO_eq, firstMove_cons_some hs]

theorem leafO21 (Ka Kb Kc : Tower) (e : Nat) (he : e = 0 ∨ e = 1)
    (hKbne : Kb ≠ []) (hKbodd : Kb.headI % 2 = 1) (hKb1 : 1 < Kb.headI)
    (hKc : Kc = [] ∨ ((1 + Kc.headI) % 2 = 1 ∧ 1 < Kc.headI))
    (hcmp : e = 1 → Kc ≠ [] ∧ Kc.headI < Kb.headI) :
    firstMove ordO ⟨Kb, Kc, 1 :: Ka⟩ e = some (⟨Kb, 1 :: Kc, Ka⟩, 2, 1) := by
  rcases Kb with _ | ⟨β, Kb'⟩
  · exact absurd rfl hKbne
  simp only [List.headI_cons] at hKbodd hKb1 hcmp
  have hm20 : Move (1 :: Ka) (β :: Kb') = (false, 1 :: Ka, β :: Kb') :=
    Move_fail_parity _ _ (by omega)
  have h20 : tryMove (⟨β :: Kb', Kc, 1 :: Ka⟩ : HanoiTower) e 2 0 = none :=
    tryMove_fail hm20
  have hs : tryMove (⟨β :: Kb', Kc, 1 :: Ka⟩ : HanoiTower) e 2 1 =
      some ⟨β :: Kb', 1 :: Kc, Ka⟩ :=
    tryMove_succ (by omega) (Move_K_onto_Kc Ka hKc)
  rcases he with rfl | rfl
  · have hm12 : Move Kc (1 :: Ka) = (false, Kc, 1 :: Ka) :=
      Move_fail_src_large _ (by
        rcases hKc with rfl | ⟨_, hlt⟩
        · exact Or.inl rfl
        · exact Or.inr (by omega))
    have h12 : tryMove (⟨β :: Kb', Kc, 1 :: Ka⟩ : HanoiTower) 0 1 2 = none :=
      tryMove_fail hm12
    rw [ordO_eq, firstMove_cons_none (tryMove_guard _ _ _),
      firstMove_cons_none (tryMove_guard _ _ _), firstMove_cons_none h12,
      firstMove_cons_none h20, firstMove_cons_some hs]
  · obtain ⟨hKcne, hlt⟩ := hcmp rfl
    rcases Kc with _ | ⟨γ, Kc'⟩
    · exact absurd rfl hKcne
    simp only [List.headI_cons] at hlt
    have hm02 : Move (β :: Kb') (1 :: Ka) = (false, β :: Kb', 1 :: Ka) :=
      Move_fail_parity _ _ (by omega)
    have hm01 : Move (β :: Kb') (γ :: Kc') = (false, β :: Kb', γ :: Kc') :=
      Move_fail_ge _ _ (by omega)
    have h02 : tryMove (⟨β :: Kb', γ :: Kc', 1 :: Ka⟩ : HanoiTower) 1 0 2 = none :=
      tryMove_fail hm02
    have h01 : tryMove (⟨β :: Kb', γ :: Kc', 1 :: Ka⟩ : HanoiTower) 1 0 1 = none :=
      tryMove_fail hm01
    rw [ordO_eq, firstMove_cons_none h02, firstMove_cons_none h01,
      firstMove_cons_none (tryMove_guard _ _ _), firstMove_cons_none h20,
      firstMove_cons_some hs]

theorem leafO10 (Ka Kb Kc : Tower) (e : Nat) (he : e = 0 ∨ e = 2)
    (hKbne : Kb ≠ []) (hKbodd : Kb.headI % 2 = 1) (hKb1 : 1 < Kb.headI)
    (hKc : Kc = [] ∨ ((1 + Kc.headI) % 2 = 1 ∧ 1 < Kc.headI))
    (hb : e = 2 → (Kc = [] ∨ Kb.headI < Kc.headI))
    (hc : e = 0 → Kc ≠ [] ∧ Kc.headI < Kb.headI) :
    firstMove ordO ⟨Kc, 1 :: Ka, Kb⟩ e = some (⟨1 :: Kc, Ka, Kb⟩, 1, 0) := by
  rcases Kb with _ | ⟨β, Kb'⟩
  · exact absurd rfl hKbne
  simp only [List.headI_cons] at hKbodd hKb1 hb hc
  have hm12 : Move (1 :: Ka) (β :: Kb') = (false, 1 :: Ka, β :: Kb') :=
    Move_fail_parity _ _ (by omega)
  have h12 : tryMove (⟨Kc, 1 :: Ka, β :: Kb'⟩ : HanoiTower) e 1 2 = none :=
    tryMove_fail hm12
  have hs : tryMove (⟨Kc, 1 :: Ka, β :: Kb'⟩ : HanoiTower) e 1 0 =
      some ⟨1 :: Kc, Ka, β :: Kb'⟩ :=
    tryMove_succ (by omega) (Move_K_onto_Kc Ka hKc)
  rcases he with rfl | rfl
  · obtain ⟨hKcne, hlt⟩ := hc rfl
    rcases Kc with _ | ⟨γ, Kc'⟩
    · exact absurd rfl hKcne
    simp only [List.headI_cons] at hlt
    have hm20 : Move (β :: Kb') (γ :: Kc') = (false, β :: Kb', γ :: Kc') :=
      Move_fail_ge _ _ (by omega)
    have hm21 : Move (β :: Kb') (1 :: Ka) = (false, β :: Kb', 1 :: Ka) :=
      Move_fail_parity _ _ (by omega)
    have h20 : tryMove (⟨γ :: Kc', 1 :: Ka, β :: Kb'⟩ : HanoiTower) 0 2 0 = none :=
      tryMove_fail hm20
    have h21 : tryMove (⟨γ :: Kc', 1 :: Ka, β :: Kb'⟩ : HanoiTower) 0 2 1 = none :=
      tryMove_fail hm21
    rw [ordO_eq, firstMove_cons_none (tryMove_guard _ _ _),
      firstMove_cons_none (tryMove_guard _ _ _), firstMove_cons_none h12,
      firstMove_cons_none h20, firstMove_cons_none h21, firstMove_cons_some hs]
  · have hm02 : Move Kc (β :: Kb') = (false, Kc, β :: Kb') :=
      Move_fail_src_large _ (by
        rcases hb rfl with rfl | h
        · exact Or.inl rfl
        · exact Or.inr (by omega))
    have hm01 : Move Kc (1 :: Ka) = (false, Kc, 1 :: Ka) :=
      Move_fail_src_large _ (by
        rcases hKc with rfl | ⟨_, hlt⟩
        · exact Or.inl rfl
        · exact Or.inr (by omega))
    have h02 : tryMove (⟨Kc, 1 :: Ka, β :: Kb'⟩ : HanoiTower) 2 0 2 = none :=
      tryMove_fail hm02
    have h01 : tryMove (⟨Kc, 1 :: Ka, β :: Kb'⟩ : HanoiTower) 2 0 1 = none :=
      tryMove_fail hm01
    rw [ordO_eq, firstMove_cons_none h02, firstMove_cons_none h01,
      firstMove_cons_none h12, firstMove_cons_none (tryMove_guard _ _ _),
      firstMove_cons_none (tryMove_guard _ _ _), firstMove_cons_some hs]

theorem leafE01 (Ka Kb Kc : Tower) (e : Nat) (he : e = 1 ∨ e = 2)
    (hKc : Kc = [] ∨ ((1 + Kc.headI) % 2 = 1 ∧ 1 < Kc.headI)) :
    firstMove ordE ⟨1 :: Ka, Kc, Kb⟩ e = some (⟨Ka, 1 :: Kc, Kb⟩, 0, 1) := by
  have hs : tryMove (⟨1 :: Ka, Kc, Kb⟩ : HanoiTower) e 0 1 = some ⟨Ka, 1 :: Kc, Kb⟩ :=
    tryMove_succ (by omega) (Move_K_onto_Kc Ka hKc)
  rw [ordE_eq, firstMove_cons_some hs]

theorem leafE12 (Ka Kb Kc : Tower) (e : Nat) (he : e = 0 ∨ e = 2)
    (hKb : Kb = [] ∨ (Kb.headI % 2 = 1 ∧ 1 < Kb.headI))
    (hKc : Kc = [] ∨ ((1 + Kc.headI) % 2 = 1 ∧ 1 < Kc.headI))
    (hc : e = 2 → (Kb = [] ∨ (Kc ≠ [] ∧ Kc.headI < Kb.headI))) :
    firstMove ordE ⟨Kb, 1 :: Ka, Kc⟩ e = some (⟨Kb, Ka, 1 :: Kc⟩, 1, 2) := by
  have hs : tryMove (⟨Kb, 1 :: Ka, Kc⟩ : HanoiTower) e 1 2 = some ⟨Kb, Ka, 1 :: Kc⟩ :=
    tryMove_succ (by omega) (Move_K_onto_Kc Ka hKc)
  rcases he with rfl | rfl
  · rw [ordE_eq, firstMove_cons_none (tryMove_guard _ _ _),
      firstMove_cons_none (tryMove_guard _ _ _), firstMove_cons_some hs]
  · have h01 : tryMove (⟨Kb, 1 :: Ka, Kc⟩ : HanoiTower) 2 0 1 = none := by
      rcases Kb with _ | ⟨β, Kb'⟩
      · exact tryMove_fail (Move_nil _)
      · simp only [List.headI_cons] at hKb
        rcases hKb with h | ⟨hodd, _⟩
        · simp at h
        · exact tryMove_fail ((Move_fail_parity Kb' Ka (by omega) :
            Move (β :: Kb') (1 :: Ka) = (false, β :: Kb', 1 :: Ka)))
    have h02 : tryMove (⟨Kb, 1 :: Ka, Kc⟩ : HanoiTower) 2 0 2 = none := by
      rcases hc rfl with rfl | ⟨hKcne, hlt⟩
      · exact tryMove_fail (Move_nil _)
      · rcases Kb with _ | ⟨β, Kb'⟩
        · exact tryMove_fail (Move_nil _)
        · rcases Kc with _ | ⟨γ, Kc'⟩
          · exact absurd rfl hKcne
          · simp only [List.headI_cons] at hlt
            exact tryMove_fail ((Move_fail_ge Kb' Kc' (by omega) :
              Move (β :: Kb') (γ :: Kc') = (false, β :: Kb', γ :: Kc')))
    rw [ordE_eq, firstMove_cons_none h01, firstMove_cons_none h02, firstMove_cons_some hs]

theorem leafE20 (Ka Kb Kc : Tower) (e : Nat) (he : e = 0 ∨ e = 1)
    (hKb : Kb = [] ∨ (Kb.headI % 2 = 1 ∧ 1 < Kb.headI))
    (hKc : Kc = [] ∨ ((1 + Kc.headI) % 2 = 1 ∧ 1 < Kc.headI))
    (hb : e = 1 → (Kc = [] ∨ (Kb ≠ [] ∧ Kb.headI < Kc.headI))) :
    firstMove ordE ⟨Kc, Kb, 1 :: Ka⟩ e = some (⟨1 :: Kc, Kb, Ka⟩, 2, 0) := by
  have hs : tryMove (⟨Kc, Kb, 1 :: Ka⟩ : HanoiTower) e 2 0 = some ⟨1 :: Kc, Kb, Ka⟩ :=
    tryMove_succ (by omega) (Move_K_onto_Kc Ka hKc)
  have h12 : tryMove (⟨Kc, Kb, 1 :: Ka⟩ : HanoiTower) e 1 2 = none := by
    rcases Kb with _ | ⟨β, Kb'⟩
    · exact tryMove_fail (Move_nil _)
    · simp only [List.headI_cons] at hKb
      rcases hKb with h | ⟨hodd, _⟩
      · simp at h
      · exact tryMove_fail ((Move_fail_parity Kb' Ka (by omega) :
          Move (β :: Kb') (1 :: Ka) = (false, β :: Kb', 1 :: Ka)))
  rcases he with rfl | rfl
  · rw [ordE_eq, firstMove_cons_none (tryMove_guard _ _ _),
      firstMove_cons_none (tryMove_guard _ _ _), firstMove_cons_none h12,
      firstMove_cons_some hs]
  · have h01 : tryMove (⟨Kc, Kb, 1 :: Ka⟩ : HanoiTower) 1 0 1 = none := by
      rcases hb rfl with rfl | ⟨hKbne, hlt⟩
      · exact tryMove_fail (Move_nil _)
      · rcases Kb with _ | ⟨β, Kb'⟩
        · exact absurd rfl hKbne
        · rcases Kc with _ | ⟨γ, Kc'⟩
          · exact tryMove_fail (Move_nil _)
          · simp only [List.headI_cons] at hlt
            exact tryMove_fail ((Move_fail_ge Kc' Kb' (by omega) :
              Move (γ :: Kc') (β :: Kb') = (false, γ :: Kc', β :: Kb')))
    have hm02 : Move Kc (1 :: Ka) = (false, Kc, 1 :: Ka) :=
      Move_fail_src_large _ (by
        rcases hKc with rfl | ⟨_, hlt⟩
        · exact Or.inl rfl
        · exact Or.inr (by omega))
    have h02 : tryMove (⟨Kc, Kb, 1 :: Ka⟩ : HanoiTower) 1 0 2 = none :=
      tryMove_fail hm02
    rw [ordE_eq, firstMove_cons_none h01, firstMove_cons_none h02,
      firstMove_cons_none (tryMove_guard _ _ _), firstMove_cons_some hs]

/-! ### Helpers for the sub-run induction -/

theorem headI_mem {l : Tower} (h : l ≠ []) : l.headI ∈ l := by
  cases l with
  | nil => exact absurd rfl h
  | cons a l => exact List.mem_cons_self a l

theorem sel_hyp_of_ctx {K : Nat} {Kc : Tower} (h1 : Kc ≠ [] → (Kc.headI + K) % 2 = 1)
    (h2 : ∀ x ∈ Kc, K < x) :
    Kc = [] ∨ ((K + Kc.headI) % 2 = 1 ∧ K < Kc.headI) := by
  cases Kc with
  | nil => exact Or.inl rfl
  | cons γ Kc' =>
    refine Or.inr ⟨?_, h2 _ (List.mem_cons_self γ Kc')⟩
    have := h1 (by simp)
    simpa [Nat.add_comm] using this

theorem altAsc_cons {K : Nat} {Kc : Tower} (hch : AltAsc Kc)
    (h : Kc ≠ [] → K < Kc.headI ∧ (K + Kc.headI) % 2 = 1) : AltAsc (K :: Kc) := by
  rw [AltAsc, List.chain'_cons']
  refine ⟨?_, hch⟩
  intro y hy
  cases Kc with
  | nil => simp at hy
  | cons γ Kc' =>
    simp only [List.head?_cons, Option.mem_def, Option.some.injEq] at hy
    subst hy
    simpa using h (by simp)

theorem altAsc_range'_append {n : Nat} {L : Tower} (hL : AltAsc L)
    (hhd : L ≠ [] → n < L.headI ∧ (n + L.headI) % 2 = 1) :
    AltAsc (List.range' 1 n ++ L) := by
  rw [AltAsc, List.chain'_append]
  refine ⟨altAsc_range' 1 n, hL, ?_⟩
  intro x hx y hy
  rw [List.getLast?_range'] at hx
  rcases Nat.eq_zero_or_pos n with rfl | hn
  · simp at hx
  · rw [if_neg (by omega)] at hx
    simp only [Option.mem_def, Option.some.injEq] at hx
    subst hx
    cases L with
    | nil => simp at hy
    | cons b l =>
      simp only [List.head?_cons, Option.mem_def, Option.some.injEq] at hy
      subst hy
      have := hhd (by simp)
      simp only [List.headI_cons] at this
      exact ⟨by omega, by omega⟩

theorem altAsc_append_junction {n : Nat} {L : Tower}
    (h : AltAsc (List.range' 1 n ++ L)) (hn : 1 ≤ n) (hL : L ≠ []) :
    n < L.headI ∧ (n + L.headI) % 2 = 1 := by
  rw [AltAsc, List.chain'_append] at h
  obtain ⟨-, -, h3⟩ := h
  cases L with
  | nil => exact absurd rfl hL
  | cons b l =>
    have := h3 n (by rw [List.getLast?_range', if_neg (by omega)]; simp) b (by simp)
    simpa using this

theorem altAsc_append_chain {n : Nat} {L : Tower}
    (h : AltAsc (List.range' 1 n ++ L)) : AltAsc L := by
  rw [AltAsc, List.chain'_append] at h
  exact h.2.1

theorem iterSt_one {cands : List (Nat × Nat)} {t : HanoiTower} {p : Nat} {t' : HanoiTower}
    {g d : Nat} (h : firstMove cands t p = some (t', g, d)) :
    iterSt cands 1 (t, p) = some (t', d) := by
  rw [iterSt, stepSt]
  simp only [h]
  rfl

theorem range'_one_split (k : Nat) (L : Tower) :
    List.range' 1 (k + 1) ++ L = List.range' 1 k ++ ((k + 1) :: L) := by
  rw [List.range'_1_concat]
  simp [Nat.add_comm]

/-! ### The sub-run lemma, leaf case: moving disk 1 from peg `a` to peg `c`. -/

theorem subRunLeaf (par : Nat) (hpar : par = 0 ∨ par = 1) (a c : Nat) (Ka Kb Kc : Tower)
    (e : Nat) (hP : Pre par 1 a c Ka Kb Kc e) :
    iterSt (ordOf par) 1 (roleBoard a c (1 :: Ka) Kb Kc, e) =
      some (roleBoard a c Ka Kb (1 :: Kc), c) := by
  obtain ⟨hk, ha, hc, hac, hdir, hKaG, hKbG, hKcG, hChA, hChB, hChC, hPb, hPc, he, hPhi⟩ := hP
  have hsel : Kc = [] ∨ ((1 + Kc.headI) % 2 = 1 ∧ 1 < Kc.headI) :=
    sel_hyp_of_ctx hPc hKcG
  have hKbodd : Kb ≠ [] → Kb.headI % 2 = 1 := by
    intro h
    simpa using hPb h
  have hKb1 : Kb ≠ [] → 1 < Kb.headI := fun h => hKbG _ (headI_mem h)
  rcases hpar with rfl | rfl
  · -- even order: leaves are the counter-clockwise pairs
    simp only [ordOf, if_neg (by omega : ¬(0 : Nat) = 1)]
    rw [if_neg (by omega)] at hdir
    interval_cases a
    · -- pair (0, 1)
      norm_num at hdir
      subst hdir
      simp only [Phi] at hPhi
      exact iterSt_one (leafE01 Ka Kb Kc e (by omega) hsel)
    · -- pair (1, 2)
      norm_num at hdir
      subst hdir
      have hKbD : Kb = [] ∨ (Kb.headI % 2 = 1 ∧ 1 < Kb.headI) := by
        by_cases h : Kb = []
        · exact Or.inl h
        · exact Or.inr ⟨hKbodd h, hKb1 h⟩
      have hcC : e = 2 → (Kb = [] ∨ (Kc ≠ [] ∧ Kc.headI < Kb.headI)) := by
        intro heq
        subst heq
        simp only [Phi, if_pos rfl, PhiC] at hPhi
        by_cases h : Kb = []
        · exact Or.inl h
        · exact Or.inr ⟨hPhi.1, hPhi.2 h⟩
      exact iterSt_one (leafE12 Ka Kb Kc e (by omega) hKbD hsel hcC)
    · -- pair (2, 0)
      norm_num at hdir
      subst hdir
      have hKbD : Kb = [] ∨ (Kb.headI % 2 = 1 ∧ 1 < Kb.headI) := by
        by_cases h : Kb = []
        · exact Or.inl h
        · exact Or.inr ⟨hKbodd h, hKb1 h⟩
      have hbB : e = 1 → (Kc = [] ∨ (Kb ≠ [] ∧ Kb.headI < Kc.headI)) := by
        intro heq
        subst heq
        simp only [Phi, if_neg (by omega : ¬(1 : Nat) = 0), PhiB] at hPhi
        exact Or.inr ⟨hPhi.1, hPhi.2.2.1⟩
      exact iterSt_one (leafE20 Ka Kb Kc e (by omega) hKbD hsel hbB)
  · -- odd order: leaves are the clockwise pairs
    simp only [ordOf, if_pos rfl]
    rw [if_pos (by omega)] at hdir
    interval_cases a
    · -- pair (0, 2)
      norm_num at hdir
      subst hdir
      exact iterSt_one (leafO02 Ka Kb Kc e (by omega) hsel)
    · -- pair (1, 0)
      norm_num at hdir
      subst hdir
      have hKbne : Kb ≠ [] := by
        rcases he with rfl | rfl
        · simp only [Phi, if_neg (by omega : ¬(3 - 1 - 0 : Nat) = 0), PhiB] at hPhi
          exact hPhi.1
        · simp only [Phi, if_pos rfl, PhiC] at hPhi
          exact hPhi.2.1
      have hbB : e = 2 → (Kc = [] ∨ Kb.headI < Kc.headI) := by
        intro heq
        subst heq
        simp only [Phi, if_neg (by omega : ¬(2 : Nat) = 0), PhiB] at hPhi
        by_cases h : Kc = []
        · exact Or.inl h
        · exact Or.inr (hPhi.2.1 h)
      have hcC : e = 0 → Kc ≠ [] ∧ Kc.headI < Kb.headI := by
        intro heq
        subst heq
        simp only [Phi, if_pos rfl, PhiC] at hPhi
        exact ⟨hPhi.1, hPhi.2.2.1⟩
      exact iterSt_one (leafO10 Ka Kb Kc e (by omega) hKbne (hKbodd hKbne) (hKb1 hKbne)
        hsel hbB hcC)
    · -- pair (2, 1)
      norm_num at hdir
      subst hdir
      have hKbne : Kb ≠ [] := by
        rcases he with rfl | rfl
        · simp only [Phi, if_neg (by omega : ¬(3 - 2 - 1 : Nat) = 1), PhiB] at hPhi
          exact hPhi.1
        · simp only [Phi, if_pos rfl, PhiC] at hPhi
          exact hPhi.2.1
      have hcmp : e = 1 → Kc ≠ [] ∧ Kc.headI < Kb.headI := by
        intro heq
        subst heq
        simp only [Phi, if_pos rfl, PhiC] at hPhi
        exact ⟨hPhi.1, hPhi.2.2⟩
      exact iterSt_one (leafO21 Ka Kb Kc e (by omega) hKbne (hKbodd hKbne) (hKb1 hKbne)
        hsel hcmp)

/-! ### The sub-run lemma, step case.  One lemma per (source, target) pair. -/

theorem roleBoard01 (X Y Z : Tower) : roleBoard 0 1 X Y Z = ⟨X, Z, Y⟩ := rfl

theorem roleBoard02 (X Y Z : Tower) : roleBoard 0 2 X Y Z = ⟨X, Y, Z⟩ := rfl

theorem roleBoard10 (X Y Z : Tower) : roleBoard 1 0 X Y Z = ⟨Z, X, Y⟩ := rfl

theorem roleBoard12 (X Y Z : Tower) : roleBoard 1 2 X Y Z = ⟨Y, X, Z⟩ := rfl

theorem roleBoard20 (X Y Z : Tower) : roleBoard 2 0 X Y Z = ⟨Z, Y, X⟩ := rfl

theorem roleBoard21 (X Y Z : Tower) : roleBoard 2 1 X Y Z = ⟨Y, Z, X⟩ := rfl

theorem pow_split (k : Nat) : 2 ^ (k + 1) - 1 = (2 ^ k - 1) + (1 + (2 ^ k - 1)) := by
  have h1 : 1 ≤ 2 ^ k := Nat.one_le_two_pow
  have h2 : 2 ^ (k + 1) = 2 * 2 ^ k := by rw [Nat.pow_succ]; ring
  omega

theorem subRunStep02 (par : Nat) (hpar : par = 0 ∨ par = 1) (k : Nat) (hk1 : 1 ≤ k)
    (ih : ∀ a c Ka Kb Kc e, Pre par k a c Ka Kb Kc e →
      iterSt (ordOf par) (2 ^ k - 1) (roleBoard a c (List.range' 1 k ++ Ka) Kb Kc, e) =
        some (roleBoard a c Ka Kb (List.range' 1 k ++ Kc), c))
    (Ka Kb Kc : Tower) (e : Nat) (hP : Pre par (k + 1) 0 2 Ka Kb Kc e) :
    iterSt (ordOf par) (2 ^ (k + 1) - 1)
        (roleBoard 0 2 (List.range' 1 (k + 1) ++ Ka) Kb Kc, e) =
      some (roleBoard 0 2 Ka Kb (List.range' 1 (k + 1) ++ Kc), 2) := by
  obtain ⟨k', rfl⟩ : ∃ k', k = k' + 1 := ⟨k - 1, by omega⟩
  obtain ⟨hk, ha, hc, hac, hdir, hKaG, hKbG, hKcG, hChA, hChB, hChC, hPb, hPc, he, hPhi⟩ := hP
  set k : Nat := k' + 1 with hkdef
  have hkp : (k + 1) % 2 = par := by
    by_cases h : (k + 1) % 2 = par
    · exact h
    · rw [if_neg h] at hdir
      omega
  have hkp' : ¬(k % 2 = par) := by omega
  have hsplitA : List.range' 1 (k + 1) ++ Ka = List.range' 1 k ++ ((k + 1) :: Ka) :=
    range'_one_split k Ka
  have hsplitC : List.range' 1 (k + 1) ++ Kc = List.range' 1 k ++ ((k + 1) :: Kc) :=
    range'_one_split k Kc
  have heBC : e = 1 ∨ e = 2 := by
    rcases he with h | h
    · exact Or.inl (by omega)
    · exact Or.inr h
  -- Pre for the first half: move disks 1 … k from peg 0 to peg 1.
  have hPre1 : Pre par k 0 1 ((k + 1) :: Ka) Kc Kb e := by
    refine ⟨hk1, by omega, by omega, by omega, ?_, ?_, ?_, ?_, ?_, hChC, hChB, ?_, ?_, ?_, ?_⟩
    · rw [if_neg hkp']
    · intro x hx
      rcases List.mem_cons.mp hx with rfl | hx
      · omega
      · have := hKaG x hx
        omega
    · intro x hx
      have := hKcG x hx
      omega
    · intro x hx
      have := hKbG x hx
      omega
    · rw [← hsplitA]
      exact hChA
    · intro h
      have := hPc h
      omega
    · intro h
      have := hPb h
      omega
    · rcases heBC with h | h
      · exact Or.inr h
      · exact Or.inl (by omega)
    · rcases heBC with rfl | rfl
      · simp only [Phi, if_pos rfl, PhiC]
        simp only [Phi, if_neg (by omega : ¬(1 : Nat) = 2), PhiB] at hPhi
        exact ⟨hPhi.1, hPhi.2, by simp⟩
      · simp only [Phi, if_neg (by omega : ¬(2 : Nat) = 1), PhiB]
        simp only [Phi, if_pos rfl, PhiC] at hPhi
        exact ⟨hPhi.2, by simp⟩
  -- Pre for the second half: move disks 1 … k from peg 1 to peg 2.
  have hPre2 : Pre par k 1 2 Kb Ka ((k + 1) :: Kc) 2 := by
    refine ⟨hk1, by omega, by omega, by omega, ?_, ?_, ?_, ?_, ?_, ?_, ?_, ?_, ?_, ?_, ?_⟩
    · rw [if_neg hkp']
    · intro x hx
      have := hKbG x hx
      omega
    · intro x hx
      have := hKaG x hx
      omega
    · intro x hx
      rcases List.mem_cons.mp hx with rfl | hx
      · omega
      · have := hKcG x hx
        omega
    · refine altAsc_range'_append hChB ?_
      intro h
      have h1 := hKbG _ (headI_mem h)
      have h2 := hPb h
      exact ⟨by omega, by omega⟩
    · exact altAsc_append_chain hChA
    · refine altAsc_cons hChC ?_
      intro h
      have h1 := hKcG _ (headI_mem h)
      have h2 := hPc h
      exact ⟨by omega, by omega⟩
    · intro h
      have := altAsc_append_junction hChA (by omega) h
      omega
    · intro h
      simp only [List.headI_cons]
      omega
    · exact Or.inr rfl
    · simp only [Phi, if_pos rfl, PhiC]
      refine ⟨by simp, ?_⟩
      intro h
      simp only [List.headI_cons]
      exact hKaG _ (headI_mem h)
  have hC1 := ih 0 1 ((k + 1) :: Ka) Kc Kb e hPre1
  have hC2 := ih 1 2 Kb Ka ((k + 1) :: Kc) 2 hPre2
  simp only [roleBoard01] at hC1
  simp only [roleBoard12] at hC2
  have hselK : Kc = [] ∨ (((k + 1) + Kc.headI) % 2 = 1 ∧ (k + 1) < Kc.headI) :=
    sel_hyp_of_ctx hPc hKcG
  have hmid : firstMove (ordOf par) ⟨(k + 1) :: Ka, List.range' 1 k ++ Kb, Kc⟩ 1 =
      some (⟨Ka, List.range' 1 k ++ Kb, (k + 1) :: Kc⟩, 0, 2) := by
    have hr : List.range' 1 k ++ Kb = 1 :: (List.range' 2 k' ++ Kb) := by
      rw [hkdef, List.range'_succ, List.cons_append]
    rw [hr]
    rcases hpar with rfl | rfl
    · simpa [ordOf] using selE02 (k + 1) Ka (List.range' 2 k' ++ Kb) Kc (by omega) hselK
    · simpa [ordOf] using selO02 (k + 1) Ka (List.range' 2 k' ++ Kb) Kc (by omega) hselK
  rw [roleBoard02, roleBoard02, pow_split, iterSt_add, hsplitA, hsplitC, hC1,
    Option.some_bind, iterSt_add, iterSt_one hmid, Option.some_bind]
  exact hC2

theorem subRunStep01 (par : Nat) (hpar : par = 0 ∨ par = 1) (k : Nat) (hk1 : 1 ≤ k)
    (ih : ∀ a c Ka Kb Kc e, Pre par k a c Ka Kb Kc e →
      iterSt (ordOf par) (2 ^ k - 1) (roleBoard a c (List.range' 1 k ++ Ka) Kb Kc, e) =
        some (roleBoard a c Ka Kb (List.range' 1 k ++ Kc), c))
    (Ka Kb Kc : Tower) (e : Nat) (hP : Pre par (k + 1) 0 1 Ka Kb Kc e) :
    iterSt (ordOf par) (2 ^ (k + 1) - 1)
        (roleBoard 0 1 (List.range' 1 (k + 1) ++ Ka) Kb Kc, e) =
      some (roleBoard 0 1 Ka Kb (List.range' 1 (k + 1) ++ Kc), 1) := by
  obtain ⟨k', rfl⟩ : ∃ k', k = k' + 1 := ⟨k - 1, by omega⟩
  obtain ⟨hk, ha, hc, hac, hdir, hKaG, hKbG, hKcG, hChA, hChB, hChC, hPb, hPc, he, hPhi⟩ := hP
  set k : Nat := k' + 1 with hkdef
  have hparle : par ≤ 1 := by
    rcases hpar with rfl | rfl
    · omega
    · omega
  have hkp : ¬((k + 1) % 2 = par) := by
    by_cases h : (k + 1) % 2 = par
    · rw [if_pos h] at hdir
      omega
    · exact h
  have hkp2 : k % 2 = par := by omega
  have hsplitA : List.range' 1 (k + 1) ++ Ka = List.range' 1 k ++ ((k + 1) :: Ka) :=
    range'_one_split k Ka
  have hsplitC : List.range' 1 (k + 1) ++ Kc = List.range' 1 k ++ ((k + 1) :: Kc) :=
    range'_one_split k Kc
  have heBC : e = 2 ∨ e = 1 := by
    rcases he with h | h
    · exact Or.inl (by omega)
    · exact Or.inr h
  have hKane : Ka ≠ [] := by
    rcases heBC with rfl | rfl
    · simp only [Phi, if_neg (by omega : ¬(2 : Nat) = 1), PhiB] at hPhi
      exact hPhi.2
    · simp only [Phi, if_pos rfl, PhiC] at hPhi
      exact hPhi.2.2
  -- first half: move disks 1 … k from peg 0 to peg 2.
  have hPre1 : Pre par k 0 2 ((k + 1) :: Ka) Kc Kb e := by
    refine ⟨hk1, by omega, by omega, by omega, ?_, ?_, ?_, ?_, ?_, hChC, hChB, ?_, ?_, ?_, ?_⟩
    · rw [if_pos hkp2]
    · intro x hx
      rcases List.mem_cons.mp hx with rfl | hx
      · omega
      · have := hKaG x hx
        omega
    · intro x hx
      have := hKcG x hx
      omega
    · intro x hx
      have := hKbG x hx
      omega
    · rw [← hsplitA]
      exact hChA
    · intro h
      have := hPc h
      omega
    · intro h
      have := hPb h
      omega
    · rcases heBC with h | h
      · exact Or.inr h
      · exact Or.inl (by omega)
    · rcases heBC with rfl | rfl
      · simp only [Phi, if_pos rfl, PhiC]
        simp only [Phi, if_neg (by omega : ¬(2 : Nat) = 1), PhiB] at hPhi
        constructor
        · intro h
          by_contra hne
          exact (hPhi.1 hne).1 h
        · intro h
          exact hPhi.1 h
      · simp only [Phi, if_neg (by omega : ¬(1 : Nat) = 2), PhiB]
        simp only [Phi, if_pos rfl, PhiC] at hPhi
        exact ⟨hPhi.1, hPhi.2.1⟩
  -- second half: move disks 1 … k from peg 2 to peg 1.
  have hPre2 : Pre par k 2 1 Kb Ka ((k + 1) :: Kc) 1 := by
    refine ⟨hk1, by omega, by omega, by omega, ?_, ?_, ?_, ?_, ?_, ?_, ?_, ?_, ?_, ?_, ?_⟩
    · rw [if_pos hkp2]
    · intro x hx
      have := hKbG x hx
      omega
    · intro x hx
      have := hKaG x hx
      omega
    · intro x hx
      rcases List.mem_cons.mp hx with rfl | hx
      · omega
      · have := hKcG x hx
        omega
    · refine altAsc_range'_append hChB ?_
      intro h
      have h1 := hKbG _ (headI_mem h)
      have h2 := hPb h
      exact ⟨by omega, by omega⟩
    · exact altAsc_append_chain hChA
    · refine altAsc_cons hChC ?_
      intro h
      have h1 := hKcG _ (headI_mem h)
      have h2 := hPc h
      exact ⟨by omega, by omega⟩
    · intro h
      have := altAsc_append_junction hChA (by omega) h
      omega
    · intro h
      simp only [List.headI_cons]
      omega
    · exact Or.inr rfl
    · simp only [Phi, if_pos rfl, PhiC]
      refine ⟨by simp, hKane, ?_⟩
      simp only [List.headI_cons]
      exact hKaG _ (headI_mem hKane)
  have hC1 := ih 0 2 ((k + 1) :: Ka) Kc Kb e hPre1
  have hC2 := ih 2 1 Kb Ka ((k + 1) :: Kc) 1 hPre2
  simp only [roleBoard02] at hC1
  simp only [roleBoard21] at hC2
  have hselK : Kc = [] ∨ (((k + 1) + Kc.headI) % 2 = 1 ∧ (k + 1) < Kc.headI) :=
    sel_hyp_of_ctx hPc hKcG
  have hmid : firstMove (ordOf par) ⟨(k + 1) :: Ka, Kc, List.range' 1 k ++ Kb⟩ 2 =
      some (⟨Ka, (k + 1) :: Kc, List.range' 1 k ++ Kb⟩, 0, 1) := by
    have hr : List.range' 1 k ++ Kb = 1 :: (List.range' 2 k' ++ Kb) := by
      rw [hkdef, List.range'_succ, List.cons_append]
    rw [hr]
    rcases hpar with rfl | rfl
    · simpa [ordOf] using selE01 (k + 1) Ka (List.range' 2 k' ++ Kb) Kc (by omega) hselK
    · simpa [ordOf] using selO01 (k + 1) Ka (List.range' 2 k' ++ Kb) Kc (by omega) hselK
  rw [roleBoard01, roleBoard01, pow_split, iterSt_add, hsplitA, hsplitC, hC1,
    Option.some_bind, iterSt_add, iterSt_one hmid, Option.some_bind]
  exact hC2

theorem subRunStep12 (par : Nat) (hpar : par = 0 ∨ par = 1) (k : Nat) (hk1 : 1 ≤ k)
    (ih : ∀ a c Ka Kb Kc e, Pre par k a c Ka Kb Kc e →
      iterSt (ordOf par) (2 ^ k - 1) (roleBoard a c (List.range' 1 k ++ Ka) Kb Kc, e) =
        some (roleBoard a c Ka Kb (List.range' 1 k ++ Kc), c))
    (Ka Kb Kc : Tower) (e : Nat) (hP : Pre par (k + 1) 1 2 Ka Kb Kc e) :
    iterSt (ordOf par) (2 ^ (k + 1) - 1)
        (roleBoard 1 2 (List.range' 1 (k + 1) ++ Ka) Kb Kc, e) =
      some (roleBoard 1 2 Ka Kb (List.range' 1 (k + 1) ++ Kc), 2) := by
  obtain ⟨k', rfl⟩ : ∃ k', k = k' + 1 := ⟨k - 1, by omega⟩
  obtain ⟨hk, ha, hc, hac, hdir, hKaG, hKbG, hKcG, hChA, hChB, hChC, hPb, hPc, he, hPhi⟩ := hP
  set k : Nat := k' + 1 with hkdef
  have hparle : par ≤ 1 := by
    rcases hpar with rfl | rfl
    · omega
    · omega
  have hkp : ¬((k + 1) % 2 = par) := by
    by_cases h : (k + 1) % 2 = par
    · rw [if_pos h] at hdir
      omega
    · exact h
  have hkp2 : k % 2 = par := by omega
  have hsplitA : List.range' 1 (k + 1) ++ Ka = List.range' 1 k ++ ((k + 1) :: Ka) :=
    range'_one_split k Ka
  have hsplitC : List.range' 1 (k + 1) ++ Kc = List.range' 1 k ++ ((k + 1) :: Kc) :=
    range'_one_split k Kc
  have heBC : e = 0 ∨ e = 2 := by
    rcases he with h | h
    · exact Or.inl (by omega)
    · exact Or.inr h
  have hPre1 : Pre par k 1 0 ((k + 1) :: Ka) Kc Kb e := by
    refine ⟨hk1, by omega, by omega, by omega, ?_, ?_, ?_, ?_, ?_, hChC, hChB, ?_, ?_, ?_, ?_⟩
    · rw [if_pos hkp2]
    · intro x hx
      rcases List.mem_cons.mp hx with rfl | hx
      · omega
      · have := hKaG x hx
        omega
    · intro x hx
      have := hKcG x hx
      omega
    · intro x hx
      have := hKbG x hx
      omega
    · rw [← hsplitA]
      exact hChA
    · intro h
      have := hPc h
      omega
    · intro h
      have := hPb h
      omega
    · rcases heBC with h | h
      · exact Or.inr h
      · exact Or.inl (by omega)
    · rcases heBC with rfl | rfl
      · simp only [Phi, if_pos rfl, PhiC]
        simp only [Phi, if_neg (by omega : ¬(0 : Nat) = 2), PhiB] at hPhi
        exact ⟨hPhi.2.1, hPhi.1, hPhi.2.2, by simp⟩
      · simp only [Phi, if_neg (by omega : ¬(2 : Nat) = 0), PhiB]
        simp only [Phi, if_pos rfl, PhiC] at hPhi
        exact ⟨hPhi.1, hPhi.2, by simp⟩
  have hPre2 : Pre par k 0 2 Kb Ka ((k + 1) :: Kc) 2 := by
    refine ⟨hk1, by omega, by omega, by omega, ?_, ?_, ?_, ?_, ?_, ?_, ?_, ?_, ?_, ?_, ?_⟩
    · rw [if_pos hkp2]
    · intro x hx
      have := hKbG x hx
      omega
    · intro x hx
      have := hKaG x hx
      omega
    · intro x hx
      rcases List.mem_cons.mp hx with rfl | hx
      · omega
      · have := hKcG x hx
        omega
    · refine altAsc_range'_append hChB ?_
      intro h
      have h1 := hKbG _ (headI_mem h)
      have h2 := hPb h
      exact ⟨by omega, by omega⟩
    · exact altAsc_append_chain hChA
    · refine altAsc_cons hChC ?_
      intro h
      have h1 := hKcG _ (headI_mem h)
      have h2 := hPc h
      exact ⟨by omega, by omega⟩
    · intro h
      have := altAsc_append_junction hChA (by omega) h
      omega
    · intro h
      simp only [List.headI_cons]
      omega
    · exact Or.inr rfl
    · simp only [Phi, if_pos rfl, PhiC]
      refine ⟨by simp, ?_⟩
      intro h
      refine ⟨by simp, ?_⟩
      simp only [List.headI_cons]
      exact hKaG _ (headI_mem h)
  have hC1 := ih 1 0 ((k + 1) :: Ka) Kc Kb e hPre1
  have hC2 := ih 0 2 Kb Ka ((k + 1) :: Kc) 2 hPre2
  simp only [roleBoard10] at hC1
  simp only [roleBoard02] at hC2
  have hselK : Kc = [] ∨ (((k + 1) + Kc.headI) % 2 = 1 ∧ (k + 1) < Kc.headI) :=
    sel_hyp_of_ctx hPc hKcG
  have hmid : firstMove (ordOf par) ⟨List.range' 1 k ++ Kb, (k + 1) :: Ka, Kc⟩ 0 =
      some (⟨List.range' 1 k ++ Kb, Ka, (k + 1) :: Kc⟩, 1, 2) := by
    have hr : List.range' 1 k ++ Kb = 1 :: (List.range' 2 k' ++ Kb) := by
      rw [hkdef, List.range'_succ, List.cons_append]
    rw [hr]
    rcases hpar with rfl | rfl
    · simpa [ordOf] using selE12 (k + 1) Ka (List.range' 2 k' ++ Kb) Kc (by omega) hselK
    · simpa [ordOf] using selO12 (k + 1) Ka (List.range' 2 k' ++ Kb) Kc (by omega) hselK
  rw [roleBoard12, roleBoard12, pow_split, iterSt_add, hsplitA, hsplitC, hC1,
    Option.some_bind, iterSt_add, iterSt_one hmid, Option.some_bind]
  exact hC2

theorem subRunStep21 (par : Nat) (hpar : par = 0 ∨ par = 1) (k : Nat) (hk1 : 1 ≤ k)
    (ih : ∀ a c Ka Kb Kc e, Pre par k a c Ka Kb Kc e →
      iterSt (ordOf par) (2 ^ k - 1) (roleBoard a c (List.range' 1 k ++ Ka) Kb Kc, e) =
        some (roleBoard a c Ka Kb (List.range' 1 k ++ Kc), c))
    (Ka Kb Kc : Tower) (e : Nat) (hP : Pre par (k + 1) 2 1 Ka Kb Kc e) :
    iterSt (ordOf par) (2 ^ (k + 1) - 1)
        (roleBoard 2 1 (List.range' 1 (k + 1) ++ Ka) Kb Kc, e) =
      some (roleBoard 2 1 Ka Kb (List.range' 1 (k + 1) ++ Kc), 1) := by
  obtain ⟨k', rfl⟩ : ∃ k', k = k' + 1 := ⟨k - 1, by omega⟩
  obtain ⟨hk, ha, hc, hac, hdir, hKaG, hKbG, hKcG, hChA, hChB, hChC, hPb, hPc, he, hPhi⟩ := hP
  set k : Nat := k' + 1 with hkdef
  have hkp : (k + 1) % 2 = par := by
    by_cases h : (k + 1) % 2 = par
    · exact h
    · rw [if_neg h] at hdir
      omega
  have hkp' : ¬(k % 2 = par) := by omega
  have hsplitA : List.range' 1 (k + 1) ++ Ka = List.range' 1 k ++ ((k + 1) :: Ka) :=
    range'_one_split k Ka
  have hsplitC : List.range' 1 (k + 1) ++ Kc = List.range' 1 k ++ ((k + 1) :: Kc) :=
    range'_one_split k Kc
  have heBC : e = 0 ∨ e = 1 := by
    rcases he with h | h
    · exact Or.inl (by omega)
    · exact Or.inr h
  have hKbne : Kb ≠ [] := by
    rcases heBC with rfl | rfl
    · simp only [Phi, if_neg (by omega : ¬(0 : Nat) = 1), PhiB] at hPhi
      exact hPhi.1
    · simp only [Phi, if_pos rfl, PhiC] at hPhi
      exact hPhi.2.1
  have hPre1 : Pre par k 2 0 ((k + 1) :: Ka) Kc Kb e := by
    refine ⟨hk1, by omega, by omega, by omega, ?_, ?_, ?_, ?_, ?_, hChC, hChB, ?_, ?_, ?_, ?_⟩
    · rw [if_neg hkp']
    · intro x hx
      rcases List.mem_cons.mp hx with rfl | hx
      · omega
      · have := hKaG x hx
        omega
    · intro x hx
      have := hKcG x hx
      omega
    · intro x hx
      have := hKbG x hx
      omega
    · rw [← hsplitA]
      exact hChA
    · intro h
      have := hPc h
      omega
    · intro h
      have := hPb h
      omega
    · rcases heBC with h | h
      · exact Or.inr h
      · exact Or.inl (by omega)
    · rcases heBC with rfl | rfl
      · simp only [Phi, if_pos rfl, PhiC]
        simp only [Phi, if_neg (by omega : ¬(0 : Nat) = 1), PhiB] at hPhi
        exact ⟨hPhi.1, hPhi.2.1, hPhi.2.2, by simp⟩
      · simp only [Phi, if_neg (by omega : ¬(1 : Nat) = 0), PhiB]
        simp only [Phi, if_pos rfl, PhiC] at hPhi
        exact ⟨hPhi.1, hPhi.2.1, hPhi.2.2, by simp⟩
  have hPre2 : Pre par k 0 1 Kb Ka ((k + 1) :: Kc) 1 := by
    refine ⟨hk1, by omega, by omega, by omega, ?_, ?_, ?_, ?_, ?_, ?_, ?_, ?_, ?_, ?_, ?_⟩
    · rw [if_neg hkp']
    · intro x hx
      have := hKbG x hx
      omega
    · intro x hx
      have := hKaG x hx
      omega
    · intro x hx
      rcases List.mem_cons.mp hx with rfl | hx
      · omega
      · have := hKcG x hx
        omega
    · refine altAsc_range'_append hChB ?_
      intro h
      have h1 := hKbG _ (headI_mem h)
      have h2 := hPb h
      exact ⟨by omega, by omega⟩
    · exact altAsc_append_chain hChA
    · refine altAsc_cons hChC ?_
      intro h
      have h1 := hKcG _ (headI_mem h)
      have h2 := hPc h
      exact ⟨by omega, by omega⟩
    · intro h
      have := altAsc_append_junction hChA (by omega) h
      omega
    · intro h
      simp only [List.headI_cons]
      omega
    · exact Or.inr rfl
    · simp only [Phi, if_pos rfl, PhiC]
      refine ⟨by simp, ?_, hKbne⟩
      intro h
      simp only [List.headI_cons]
      exact hKaG _ (headI_mem h)
  have hC1 := ih 2 0 ((k + 1) :: Ka) Kc Kb e hPre1
  have hC2 := ih 0 1 Kb Ka ((k + 1) :: Kc) 1 hPre2
  simp only [roleBoard20] at hC1
  simp only [roleBoard01] at hC2
  have hselK : Kc = [] ∨ (((k + 1) + Kc.headI) % 2 = 1 ∧ (k + 1) < Kc.headI) :=
    sel_hyp_of_ctx hPc hKcG
  have hmid : firstMove (ordOf par) ⟨List.range' 1 k ++ Kb, Kc, (k + 1) :: Ka⟩ 0 =
      some (⟨List.range' 1 k ++ Kb, (k + 1) :: Kc, Ka⟩, 2, 1) := by
    have hr : List.range' 1 k ++ Kb = 1 :: (List.range' 2 k' ++ Kb) := by
      rw [hkdef, List.range'_succ, List.cons_append]
    rw [hr]
    rcases hpar with rfl | rfl
    · simpa [ordOf] using selE21 (k + 1) Ka (List.range' 2 k' ++ Kb) Kc (by omega) hselK
    · simpa [ordOf] using selO21 (k + 1) Ka (List.range' 2 k' ++ Kb) Kc (by omega) hselK
  rw [roleBoard21, roleBoard21, pow_split, iterSt_add, hsplitA, hsplitC, hC1,
    Option.some_bind, iterSt_add, iterSt_one hmid, Option.some_bind]
  exact hC2

theorem subRunStep20 (par : Nat) (hpar : par = 0 ∨ par = 1) (k : Nat) (hk1 : 1 ≤ k)
    (ih : ∀ a c Ka Kb Kc e, Pre par k a c Ka Kb Kc e →
      iterSt (ordOf par) (2 ^ k - 1) (roleBoard a c (List.range' 1 k ++ Ka) Kb Kc, e) =
        some (roleBoard a c Ka Kb (List.range' 1 k ++ Kc), c))
    (Ka Kb Kc : Tower) (e : Nat) (hP : Pre par (k + 1) 2 0 Ka Kb Kc e) :
    iterSt (ordOf par) (2 ^ (k + 1) - 1)
        (roleBoard 2 0 (List.range' 1 (k + 1) ++ Ka) Kb Kc, e) =
      some (roleBoard 2 0 Ka Kb (List.range' 1 (k + 1) ++ Kc), 0) := by
  obtain ⟨k', rfl⟩ : ∃ k', k = k' + 1 := ⟨k - 1, by omega⟩
  obtain ⟨hk, ha, hc, hac, hdir, hKaG, hKbG, hKcG, hChA, hChB, hChC, hPb, hPc, he, hPhi⟩ := hP
  set k : Nat := k' + 1 with hkdef
  have hparle : par ≤ 1 := by
    rcases hpar with rfl | rfl
    · omega
    · omega
  have hkp : ¬((k + 1) % 2 = par) := by
    by_cases h : (k + 1) % 2 = par
    · rw [if_pos h] at hdir
      omega
    · exact h
  have hkp2 : k % 2 = par := by omega
  have hsplitA : List.range' 1 (k + 1) ++ Ka = List.range' 1 k ++ ((k + 1) :: Ka) :=
    range'_one_split k Ka
  have hsplitC : List.range' 1 (k + 1) ++ Kc = List.range' 1 k ++ ((k + 1) :: Kc) :=
    range'_one_split k Kc
  have heBC : e = 1 ∨ e = 0 := by
    rcases he with h | h
    · exact Or.inl (by omega)
    · exact Or.inr h
  have hKane : Ka ≠ [] := by
    rcases heBC with rfl | rfl
    · simp only [Phi, if_neg (by omega : ¬(1 : Nat) = 0), PhiB] at hPhi
      exact hPhi.2.2.2
    · simp only [Phi, if_pos rfl, PhiC] at hPhi
      exact hPhi.2.2.2
  have hKbne : Kb ≠ [] := by
    rcases heBC with rfl | rfl
    · simp only [Phi, if_neg (by omega : ¬(1 : Nat) = 0), PhiB] at hPhi
      exact hPhi.1
    · simp only [Phi, if_pos rfl, PhiC] at hPhi
      exact hPhi.2.1
  have hPre1 : Pre par k 2 1 ((k + 1) :: Ka) Kc Kb e := by
    refine ⟨hk1, by omega, by omega, by omega, ?_, ?_, ?_, ?_, ?_, hChC, hChB, ?_, ?_, ?_, ?_⟩
    · rw [if_pos hkp2]
    · intro x hx
      rcases List.mem_cons.mp hx with rfl | hx
      · omega
      · have := hKaG x hx
        omega
    · intro x hx
      have := hKcG x hx
      omega
    · intro x hx
      have := hKbG x hx
      omega
    · rw [← hsplitA]
      exact hChA
    · intro h
      have := hPc h
      omega
    · intro h
      have := hPb h
      omega
    · rcases heBC with h | h
      · exact Or.inr h
      · exact Or.inl (by omega)
    · rcases heBC with rfl | rfl
      · simp only [Phi, if_pos rfl, PhiC]
        simp only [Phi, if_neg (by omega : ¬(1 : Nat) = 0), PhiB] at hPhi
        exact ⟨hPhi.1, hPhi.2.1, hPhi.2.2.1⟩
      · simp only [Phi, if_neg (by omega : ¬(0 : Nat) = 1), PhiB]
        simp only [Phi, if_pos rfl, PhiC] at hPhi
        exact ⟨hPhi.1, hPhi.2.1, hPhi.2.2.1⟩
  have hPre2 : Pre par k 1 0 Kb Ka ((k + 1) :: Kc) 0 := by
    refine ⟨hk1, by omega, by omega, by omega, ?_, ?_, ?_, ?_, ?_, ?_, ?_, ?_, ?_, ?_, ?_⟩
    · rw [if_pos hkp2]
    · intro x hx
      have := hKbG x hx
      omega
    · intro x hx
      have := hKaG x hx
      omega
    · intro x hx
      rcases List.mem_cons.mp hx with rfl | hx
      · omega
      · have := hKcG x hx
        omega
    · refine altAsc_range'_append hChB ?_
      intro h
      have h1 := hKbG _ (headI_mem h)
      have h2 := hPb h
      exact ⟨by omega, by omega⟩
    · exact altAsc_append_chain hChA
    · refine altAsc_cons hChC ?_
      intro h
      have h1 := hKcG _ (headI_mem h)
      have h2 := hPc h
      exact ⟨by omega, by omega⟩
    · intro h
      have := altAsc_append_junction hChA (by omega) h
      omega
    · intro h
      simp only [List.headI_cons]
      omega
    · exact Or.inr rfl
    · simp only [Phi, if_pos rfl, PhiC]
      refine ⟨by simp, hKane, ?_, hKbne⟩
      simp only [List.headI_cons]
      exact hKaG _ (headI_mem hKane)
  have hC1 := ih 2 1 ((k + 1) :: Ka) Kc Kb e hPre1
  have hC2 := ih 1 0 Kb Ka ((k + 1) :: Kc) 0 hPre2
  simp only [roleBoard21] at hC1
  simp only [roleBoard10] at hC2
  have hselK : Kc = [] ∨ (((k + 1) + Kc.headI) % 2 = 1 ∧ (k + 1) < Kc.headI) :=
    sel_hyp_of_ctx hPc hKcG
  have hmid : firstMove (ordOf par) ⟨Kc, List.range' 1 k ++ Kb, (k + 1) :: Ka⟩ 1 =
      some (⟨(k + 1) :: Kc, List.range' 1 k ++ Kb, Ka⟩, 2, 0) := by
    have hr : List.range' 1 k ++ Kb = 1 :: (List.range' 2 k' ++ Kb) := by
      rw [hkdef, List.range'_succ, List.cons_append]
    rw [hr]
    rcases hpar with rfl | rfl
    · simpa [ordOf] using selE20 (k + 1) Ka (List.range' 2 k' ++ Kb) Kc (by omega) hselK
    · simpa [ordOf] using selO20 (k + 1) Ka (List.range' 2 k' ++ Kb) Kc (by omega) hselK
  rw [roleBoard20, roleBoard20, pow_split, iterSt_add, hsplitA, hsplitC, hC1,
    Option.some_bind, iterSt_add, iterSt_one hmid, Option.some_bind]
  exact hC2

theorem subRunStep10 (par : Nat) (hpar : par = 0 ∨ par = 1) (k : Nat) (hk1 : 1 ≤ k)
    (ih : ∀ a c Ka Kb Kc e, Pre par k a c Ka Kb Kc e →
      iterSt (ordOf par) (2 ^ k - 1) (roleBoard a c (List.range' 1 k ++ Ka) Kb Kc, e) =
        some (roleBoard a c Ka Kb (List.range' 1 k ++ Kc), c))
    (Ka Kb Kc : Tower) (e : Nat) (hP : Pre par (k + 1) 1 0 Ka Kb Kc e) :
    iterSt (ordOf par) (2 ^ (k + 1) - 1)
        (roleBoard 1 0 (List.range' 1 (k + 1) ++ Ka) Kb Kc, e) =
      some (roleBoard 1 0 Ka Kb (List.range' 1 (k + 1) ++ Kc), 0) := by
  obtain ⟨k', rfl⟩ : ∃ k', k = k' + 1 := ⟨k - 1, by omega⟩
  obtain ⟨hk, ha, hc, hac, hdir, hKaG, hKbG, hKcG, hChA, hChB, hChC, hPb, hPc, he, hPhi⟩ := hP
  set k : Nat := k' + 1 with hkdef
  have hkp : (k + 1) % 2 = par := by
    by_cases h : (k + 1) % 2 = par
    · exact h
    · rw [if_neg h] at hdir
      omega
  have hkp' : ¬(k % 2 = par) := by omega
  have hsplitA : List.range' 1 (k + 1) ++ Ka = List.range' 1 k ++ ((k + 1) :: Ka) :=
    range'_one_split k Ka
  have hsplitC : List.range' 1 (k + 1) ++ Kc = List.range' 1 k ++ ((k + 1) :: Kc) :=
    range'_one_split k Kc
  have heBC : e = 2 ∨ e = 0 := by
    rcases he with h | h
    · exact Or.inl (by omega)
    · exact Or.inr h
  have hKane : Ka ≠ [] := by
    rcases heBC with rfl | rfl
    · simp only [Phi, if_neg (by omega : ¬(2 : Nat) = 0), PhiB] at hPhi
      exact hPhi.2.2
    · simp only [Phi, if_pos rfl, PhiC] at hPhi
      exact hPhi.2.2.2
  have hKbne : Kb ≠ [] := by
    rcases heBC with rfl | rfl
    · simp only [Phi, if_neg (by omega : ¬(2 : Nat) = 0), PhiB] at hPhi
      exact hPhi.1
    · simp only [Phi, if_pos rfl, PhiC] at hPhi
      exact hPhi.2.1
  have hPre1 : Pre par k 1 2 ((k + 1) :: Ka) Kc Kb e := by
    refine ⟨hk1, by omega, by omega, by omega, ?_, ?_, ?_, ?_, ?_, hChC, hChB, ?_, ?_, ?_, ?_⟩
    · rw [if_neg hkp']
    · intro x hx
      rcases List.mem_cons.mp hx with rfl | hx
      · omega
      · have := hKaG x hx
        omega
    · intro x hx
      have := hKcG x hx
      omega
    · intro x hx
      have := hKbG x hx
      omega
    · rw [← hsplitA]
      exact hChA
    · intro h
      have := hPc h
      omega
    · intro h
      have := hPb h
      omega
    · rcases heBC with h | h
      · exact Or.inr h
      · exact Or.inl (by omega)
    · rcases heBC with rfl | rfl
      · simp only [Phi, if_pos rfl, PhiC]
        simp only [Phi, if_neg (by omega : ¬(2 : Nat) = 0), PhiB] at hPhi
        exact ⟨hPhi.1, hPhi.2.1⟩
      · simp only [Phi, if_neg (by omega : ¬(0 : Nat) = 2), PhiB]
        simp only [Phi, if_pos rfl, PhiC] at hPhi
        exact ⟨hPhi.2.1, hPhi.1, hPhi.2.2.1⟩
  have hPre2 : Pre par k 2 0 Kb Ka ((k + 1) :: Kc) 0 := by
    refine ⟨hk1, by omega, by omega, by omega, ?_, ?_, ?_, ?_, ?_, ?_, ?_, ?_, ?_, ?_, ?_⟩
    · rw [if_neg hkp']
    · intro x hx
      have := hKbG x hx
      omega
    · intro x hx
      have := hKaG x hx
      omega
    · intro x hx
      rcases List.mem_cons.mp hx with rfl | hx
      · omega
      · have := hKcG x hx
        omega
    · refine altAsc_range'_append hChB ?_
      intro h
      have h1 := hKbG _ (headI_mem h)
      have h2 := hPb h
      exact ⟨by omega, by omega⟩
    · exact altAsc_append_chain hChA
    · refine altAsc_cons hChC ?_
      intro h
      have h1 := hKcG _ (headI_mem h)
      have h2 := hPc h
      exact ⟨by omega, by omega⟩
    · intro h
      have := altAsc_append_junction hChA (by omega) h
      omega
    · intro h
      simp only [List.headI_cons]
      omega
    · exact Or.inr rfl
    · simp only [Phi, if_pos rfl, PhiC]
      refine ⟨by simp, hKane, ?_, hKbne⟩
      simp only [List.headI_cons]
      exact hKaG _ (headI_mem hKane)
  have hC1 := ih 1 2 ((k + 1) :: Ka) Kc Kb e hPre1
  have hC2 := ih 2 0 Kb Ka ((k + 1) :: Kc) 0 hPre2
  simp only [roleBoard12] at hC1
  simp only [roleBoard20] at hC2
  have hselK : Kc = [] ∨ (((k + 1) + Kc.headI) % 2 = 1 ∧ (k + 1) < Kc.headI) :=
    sel_hyp_of_ctx hPc hKcG
  have hmid : firstMove (ordOf par) ⟨Kc, (k + 1) :: Ka, List.range' 1 k ++ Kb⟩ 2 =
      some (⟨(k + 1) :: Kc, Ka, List.range' 1 k ++ Kb⟩, 1, 0) := by
    have hr : List.range' 1 k ++ Kb = 1 :: (List.range' 2 k' ++ Kb) := by
      rw [hkdef, List.range'_succ, List.cons_append]
    rw [hr]
    rcases hpar with rfl | rfl
    · simpa [ordOf] using selE10 (k + 1) Ka (List.range' 2 k' ++ Kb) Kc (by omega) hselK
    · simpa [ordOf] using selO10 (k + 1) Ka (List.range' 2 k' ++ Kb) Kc (by omega) hselK
  rw [roleBoard10, roleBoard10, pow_split, iterSt_add, hsplitA, hsplitC, hC1,
    Option.some_bind, iterSt_add, iterSt_one hmid, Option.some_bind]
  exact hC2

/-- The sub-run lemma: under the invariant `Pre`, the flattened driver moves
disks `1 … k` from peg `a` to peg `c` in exactly `2 ^ k - 1` successful moves,
leaving the contexts untouched and the last-moved index at `c`. -/
theorem subRun (par : Nat) (hpar : par = 0 ∨ par = 1) :
    ∀ k a c Ka Kb Kc e, Pre par k a c Ka Kb Kc e →
      iterSt (ordOf par) (2 ^ k - 1) (roleBoard a c (List.range' 1 k ++ Ka) Kb Kc, e) =
        some (roleBoard a c Ka Kb (List.range' 1 k ++ Kc), c) := by
  intro k
  induction k with
  | zero =>
    intro a c Ka Kb Kc e hP
    exact absurd hP.hk (by omega)
  | succ k ih =>
    intro a c Ka Kb Kc e hP
    rcases Nat.eq_zero_or_pos k with rfl | hk1
    · exact subRunLeaf par hpar a c Ka Kb Kc e hP
    · have ha := hP.ha
      have hc := hP.hc
      have hac := hP.hac
      have hcase : (a = 0 ∧ c = 1) ∨ (a = 0 ∧ c = 2) ∨ (a = 1 ∧ c = 0) ∨ (a = 1 ∧ c = 2) ∨
          (a = 2 ∧ c = 0) ∨ (a = 2 ∧ c = 1) := by omega
      rcases hcase with ⟨rfl, rfl⟩ | ⟨rfl, rfl⟩ | ⟨rfl, rfl⟩ | ⟨rfl, rfl⟩ | ⟨rfl, rfl⟩ |
        ⟨rfl, rfl⟩
      · exact subRunStep01 par hpar k hk1 ih Ka Kb Kc e hP
      · exact subRunStep02 par hpar k hk1 ih Ka Kb Kc e hP
      · exact subRunStep10 par hpar k hk1 ih Ka Kb Kc e hP
      · exact subRunStep12 par hpar k hk1 ih Ka Kb Kc e hP
      · exact subRunStep20 par hpar k hk1 ih Ka Kb Kc e hP
      · exact subRunStep21 par hpar k hk1 ih Ka Kb Kc e hP

/-- The flattened run: starting from the initial board, after exactly
`2 ^ N - 1` successful moves all disks sit on peg 2 and the last move landed
on peg 2. -/
theorem flatRun (N : Nat) (hN : 1 ≤ N) :
    iterSt (ordOf (N % 2)) (2 ^ N - 1) (⟨List.range' 1 N, [], []⟩, 2) =
      some (⟨[], [], List.range' 1 N⟩, 2) := by
  have hP : Pre (N % 2) N 0 2 [] [] [] 2 := by
    refine ⟨hN, by omega, by omega, by omega, ?_, by simp, by simp, by simp, ?_,
      by simp [AltAsc], by simp [AltAsc], by simp, by simp, Or.inr rfl, ?_⟩
    · rw [if_pos rfl]
    · simpa using altAsc_range' 1 N
    · simp [Phi, PhiC]
  have h := subRun (N % 2) (by omega) N 0 2 [] [] [] 2 hP
  simpa [roleBoard02] using h

/-! ### Bridging the flattened run to the nested loops of the program -/

theorem iterSt_succ_inv {cands : List (Nat × Nat)} {n : Nat} {s sEnd : HanoiTower × Nat}
    (h : iterSt cands (n + 1) s = some sEnd) :
    ∃ s1 mv, stepSt cands s = some (s1, mv) ∧ iterSt cands n s1 = some sEnd := by
  rw [iterSt] at h
  rcases hS : stepSt cands s with _ | ⟨s1, mv⟩ <;> rw [hS] at h
  · simp at h
  · exact ⟨s1, mv, rfl, h⟩

theorem iterSt_zero_inv {cands : List (Nat × Nat)} {s sEnd : HanoiTower × Nat}
    (h : iterSt cands 0 s = some sEnd) : s = sEnd := by
  simpa [iterSt] using h

theorem stepSt_of_firstMove {cands : List (Nat × Nat)} {t : HanoiTower} {p : Nat}
    {t' : HanoiTower} {g d : Nat} (h : firstMove cands t p = some (t', g, d)) :
    stepSt cands (t, p) = some ((t', d), (g, d)) := by
  rw [stepSt]
  simp only [h]

theorem stepSt_none_of_firstMove {cands : List (Nat × Nat)} {s : HanoiTower × Nat}
    (h : firstMove cands s.1 s.2 = none) : stepSt cands s = none := by
  rw [stepSt, h]

theorem firstMove_of_stepSt_none {cands : List (Nat × Nat)} {s : HanoiTower × Nat}
    (h : stepSt cands s = none) : firstMove cands s.1 s.2 = none := by
  rcases hF : firstMove cands s.1 s.2 with _ | ⟨t', g, d⟩
  · rfl
  · rw [stepSt, hF] at h
    simp at h

theorem firstMove_append_none {xs ys : List (Nat × Nat)} {t : HanoiTower} {p : Nat}
    (h : firstMove (xs ++ ys) t p = none) :
    firstMove xs t p = none ∧ firstMove ys t p = none := by
  rw [firstMove_append] at h
  rcases hx : firstMove xs t p with _ | r <;> rw [hx] at h
  · exact ⟨rfl, h⟩
  · simp at h

theorem firstMove_append_left {xs ys : List (Nat × Nat)} {t : HanoiTower} {p : Nat} {r}
    (h : firstMove xs t p = some r) : firstMove (xs ++ ys) t p = some r := by
  rw [firstMove_append, h]

theorem firstMove_append_right {xs ys : List (Nat × Nat)} {t : HanoiTower} {p : Nat}
    (h : firstMove xs t p = none) : firstMove (xs ++ ys) t p = firstMove ys t p := by
  rw [firstMove_append, h]

/-- At the goal configuration (pegs 0 and 1 empty) no forward candidate can
fire: both forward orders only move out of pegs 0 and 1. -/
theorem stuck_fwd_odd (X : Tower) (p : Nat) : firstMove oddFwd ⟨[], [], X⟩ p = none := by
  have h02 : tryMove (⟨[], [], X⟩ : HanoiTower) p 0 2 = none := tryMove_fail (Move_nil _)
  have h01 : tryMove (⟨[], [], X⟩ : HanoiTower) p 0 1 = none := tryMove_fail (Move_nil _)
  have h12 : tryMove (⟨[], [], X⟩ : HanoiTower) p 1 2 = none := tryMove_fail (Move_nil _)
  rw [show oddFwd = [(0, 2), (0, 1), (1, 2)] from rfl, firstMove_cons_none h02,
    firstMove_cons_none h01, firstMove_cons_none h12]
  rfl

theorem stuck_fwd_even (X : Tower) (p : Nat) : firstMove evenFwd ⟨[], [], X⟩ p = none := by
  have h02 : tryMove (⟨[], [], X⟩ : HanoiTower) p 0 2 = none := tryMove_fail (Move_nil _)
  have h01 : tryMove (⟨[], [], X⟩ : HanoiTower) p 0 1 = none := tryMove_fail (Move_nil _)
  have h12 : tryMove (⟨[], [], X⟩ : HanoiTower) p 1 2 = none := tryMove_fail (Move_nil _)
  rw [show evenFwd = [(0, 1), (0, 2), (1, 2)] from rfl, firstMove_cons_none h01,
    firstMove_cons_none h02, firstMove_cons_none h12]
  rfl

/-- At the goal configuration with `previous = 2` the backward sweep is also
stuck: moves out of peg 2 are guarded and peg 1 is empty. -/
theorem stuck_back (X : Tower) : firstMove backCands ⟨[], [], X⟩ 2 = none := by
  have h10 : tryMove (⟨[], [], X⟩ : HanoiTower) 2 1 0 = none := tryMove_fail (Move_nil _)
  rw [show backCands = [(2, 0), (2, 1), (1, 0)] from rfl,
    firstMove_cons_none (tryMove_guard _ _ _), firstMove_cons_none (tryMove_guard _ _ _),
    firstMove_cons_none h10]
  rfl

/-- Effect of one successful move on peg 2, by the chosen pair. -/
theorem stepSt_t2 {cands : List (Nat × Nat)}
    (hgood : ∀ gd ∈ cands, gd.1 < 3 ∧ gd.2 < 3 ∧ gd.1 ≠ gd.2)
    {s s' : HanoiTower × Nat} {g d : Nat} (h : stepSt cands s = some (s', (g, d))) :
    (g ≠ 2 → d ≠ 2 → s'.1.t2 = s.1.t2) ∧
    (g = 2 → s.1.t2.length = s'.1.t2.length + 1) ∧
    (d = 2 → s'.1.t2.length = s.1.t2.length + 1) := by
  obtain ⟨hF, hprev⟩ := stepSt_some_spec h
  obtain ⟨hmem, hpg, hsucc, hboard⟩ := firstMove_some_spec hF
  obtain ⟨hg3, hd3, hgd⟩ := hgood _ hmem
  simp only at hg3 hd3 hgd
  rcases hM : Move (getT s.1 g) (getT s.1 d) with ⟨b, fr', toT'⟩
  rw [hM] at hboard hsucc
  simp only at hsucc hboard
  subst hsucc
  obtain ⟨f, fs, hfr, hfr', htoT', hR⟩ := move_shape hM
  subst hfr'
  have hgcase : (g = 0 ∧ d = 1) ∨ (g = 0 ∧ d = 2) ∨ (g = 1 ∧ d = 0) ∨ (g = 1 ∧ d = 2) ∨
      (g = 2 ∧ d = 0) ∨ (g = 2 ∧ d = 1) := by omega
  rcases hgcase with ⟨rfl, rfl⟩ | ⟨rfl, rfl⟩ | ⟨rfl, rfl⟩ | ⟨rfl, rfl⟩ | ⟨rfl, rfl⟩ |
    ⟨rfl, rfl⟩ <;>
    simp only [getT] at hfr htoT' <;>
    subst htoT' <;>
    rw [hboard] <;>
    refine ⟨?_, ?_, ?_⟩ <;>
    intro hh <;>
    first
      | omega
      | rfl
      | (intro _; rfl)
      | simp [setT, hfr]
      | (intro _; simp [setT, hfr])

theorem card_diskMultiset (t : HanoiTower) :
    Multiset.card (diskMultiset t) = t.t0.length + t.t1.length + t.t2.length := by
  simp [diskMultiset]
  omega

theorem iterSt_lengths {cands : List (Nat × Nat)}
    (hgood : ∀ gd ∈ cands, gd.1 < 3 ∧ gd.2 < 3 ∧ gd.1 ≠ gd.2) {N i : Nat}
    {s : HanoiTower × Nat} (h : iterSt cands i (⟨List.range' 1 N, [], []⟩, 2) = some s) :
    s.1.t0.length + s.1.t1.length + s.1.t2.length = N := by
  have hv := iterSt_valid hgood h
    ⟨by simpa using altAsc_range' 1 N, by simp [AltAsc], by simp [AltAsc]⟩
  have hc := congrArg Multiset.card hv.2
  rw [card_diskMultiset, card_diskMultiset] at hc
  simpa using hc

/-- If after `i` moves from the initial board peg 2 holds all `N` disks, the
run is over: intermediate states of a run that still continues never satisfy
the loop exit condition. -/
theorem nongoal {cands : List (Nat × Nat)}
    (hgood : ∀ gd ∈ cands, gd.1 < 3 ∧ gd.2 < 3 ∧ gd.1 ≠ gd.2)
    (hstuck2 : ∀ X : Tower, stepSt cands (⟨[], [], X⟩, 2) = none)
    {N : Nat} (hN : 1 ≤ N) {j : Nat} {sEnd : HanoiTower × Nat}
    (hrun : iterSt cands j (⟨List.range' 1 N, [], []⟩, 2) = some sEnd) :
    ∀ i s_i, i < j → iterSt cands i (⟨List.range' 1 N, [], []⟩, 2) = some s_i →
      s_i.1.t2.length ≠ N := by
  intro i
  induction i with
  | zero =>
    intro s_i hij h0
    have := iterSt_zero_inv h0
    rw [← this]
    simp
    omega
  | succ i ihI =>
    intro s_i hij hiter
    intro hlen
    have hsplit := iterSt_add cands i 1 (⟨List.range' 1 N, [], []⟩, 2)
    rw [hiter] at hsplit
    rcases hprev : iterSt cands i (⟨List.range' 1 N, [], []⟩, 2) with _ | s_prev
    · rw [hprev] at hsplit
      simp at hsplit
    · rw [hprev] at hsplit
      simp only [Option.some_bind] at hsplit
      obtain ⟨s1, mv, hstep, h0⟩ := iterSt_succ_inv hsplit.symm
      have hs1 := iterSt_zero_inv h0
      rw [hs1] at hstep
      rcases mv with ⟨g, d⟩
      have ht2 := stepSt_t2 hgood hstep
      by_cases hd : d = 2
      · subst hd
        have hp2 : s_i.2 = 2 := (stepSt_some_spec hstep).2
        have hlens := iterSt_lengths hgood hiter
        have ht0 : s_i.1.t0 = [] := by
          have : s_i.1.t0.length = 0 := by omega
          exact List.length_eq_zero.mp this
        have ht1 : s_i.1.t1 = [] := by
          have : s_i.1.t1.length = 0 := by omega
          exact List.length_eq_zero.mp this
        have hstuckI : stepSt cands s_i = none := by
          have hrepr : s_i = (⟨[], [], s_i.1.t2⟩, 2) := by
            rcases s_i with ⟨⟨a0, a1, a2⟩, p⟩
            simp only at ht0 ht1 hp2
            rw [ht0, ht1, hp2]
          rw [hrepr]
          exact hstuck2 _
        have hj' : j = (i + 1) + (j - i - 1) := by omega
        rw [hj', iterSt_add, hiter, Option.some_bind] at hrun
        have hji : j - i - 1 = (j - i - 2) + 1 := by omega
        rw [hji] at hrun
        obtain ⟨s2, mv2, hstep2, -⟩ := iterSt_succ_inv hrun
        rw [hstuckI] at hstep2
        simp at hstep2
      · by_cases hg : g = 2
        · have hlup := ht2.2.1 hg
          have hlens := iterSt_lengths hgood hprev
          omega
        · have heq := ht2.1 hg hd
          exact ihI s_prev (by omega) hprev (by rw [← heq]; exact hlen)

/-- The inner forward loop consumes exactly the maximal prefix of forward
moves of the flattened run. -/
theorem phaseRun_bridge (fwd : List (Nat × Nat)) :
    ∀ (j iF : Nat) (t : HanoiTower) (p m : Nat) (sEnd : HanoiTower × Nat),
      iterSt (fwd ++ backCands) j (t, p) = some sEnd →
      stepSt (fwd ++ backCands) sEnd = none →
      j + 1 ≤ iF →
      ∃ r, r ≤ j ∧ ∃ u : HanoiTower × Nat,
        iterSt (fwd ++ backCands) r (t, p) = some u ∧
        firstMove fwd u.1 u.2 = none ∧
        phaseRun fwd iF t p m = some (u.1, u.2, m + r) ∧
        iterSt (fwd ++ backCands) (j - r) u = some sEnd := by
  intro j
  induction j with
  | zero =>
    intro iF t p m sEnd h hstuck hiF
    have hse := iterSt_zero_inv h
    have hfull := firstMove_of_stepSt_none hstuck
    have hfwd : firstMove fwd t p = none := by
      rw [← hse] at hfull
      exact (firstMove_append_none hfull).1
    obtain ⟨f, rfl⟩ : ∃ f, iF = f + 1 := ⟨iF - 1, by omega⟩
    refine ⟨0, le_refl 0, (t, p), by simp [iterSt], hfwd, ?_, by simpa [iterSt] using h⟩
    rw [phaseRun, hfwd]
    simp
  | succ j' ihJ =>
    intro iF t p m sEnd h hstuck hiF
    rcases hA : firstMove fwd t p with _ | ⟨t1, g, d⟩
    · obtain ⟨f, rfl⟩ : ∃ f, iF = f + 1 := ⟨iF - 1, by omega⟩
      refine ⟨0, by omega, (t, p), by simp [iterSt], hA, ?_, by simpa using h⟩
      rw [phaseRun, hA]
      simp
    · have hfull : firstMove (fwd ++ backCands) t p = some (t1, g, d) :=
        firstMove_append_left hA
      have hstep : stepSt (fwd ++ backCands) (t, p) = some ((t1, d), (g, d)) :=
        stepSt_of_firstMove hfull
      have hrest : iterSt (fwd ++ backCands) j' (t1, d) = some sEnd := by
        rw [iterSt, hstep] at h
        exact h
      obtain ⟨f, rfl⟩ : ∃ f, iF = f + 1 := ⟨iF - 1, by omega⟩
      obtain ⟨r', hr', u, hiter, hfm, hpr, htail⟩ :=
        ihJ f t1 d (m + 1) sEnd hrest hstuck (by omega)
      refine ⟨r' + 1, by omega, u, ?_, hfm, ?_, ?_⟩
      · rw [iterSt, hstep]
        exact hiter
      · rw [phaseRun, hA]
        simp only
        rw [hpr, show m + 1 + r' = m + (r' + 1) from by omega]
      · rw [show j' + 1 - (r' + 1) = j' - r' from by omega]
        exact htail

/-- The outer loop of `Hanoi` follows the flattened run move for move and
returns the final board and move count. -/
theorem hanoiLoop_bridge (fwd : List (Nat × Nat)) (N : Nat) :
    ∀ j, ∀ (t : HanoiTower) (p m oF iF : Nat) (sEnd : HanoiTower × Nat),
      iterSt (fwd ++ backCands) j (t, p) = some sEnd →
      stepSt (fwd ++ backCands) sEnd = none →
      sEnd.1.t2.length = N →
      (∀ i s_i, i < j → iterSt (fwd ++ backCands) i (t, p) = some s_i →
        s_i.1.t2.length ≠ N) →
      j + 2 ≤ oF → j + 2 ≤ iF →
      hanoiLoop fwd iF oF N t p m = some (sEnd.1, m + j) := by
  intro j
  induction j using Nat.strong_induction_on with
  | _ j ihS =>
    intro t p m oF iF sEnd hrun hstuck hgoal hnon hoF hiF
    obtain ⟨f, rfl⟩ : ∃ f, oF = f + 1 := ⟨oF - 1, by omega⟩
    by_cases hcond : t.t2.length = N
    · have hj : j = 0 := by
        by_contra hj0
        exact hnon 0 (t, p) (by omega) (by simp [iterSt]) hcond
      subst hj
      have hse := iterSt_zero_inv hrun
      rw [hanoiLoop, if_pos hcond, ← hse]
      simp
    · obtain ⟨r, hrle, u, hiterR, hfm, hpr, htail⟩ :=
        phaseRun_bridge fwd j iF t p m sEnd hrun hstuck (by omega)
      rw [hanoiLoop, if_neg hcond, hpr]
      simp only
      rcases Nat.lt_or_ge r j with hrlt | hrge
      · have hjr : j - r = (j - r - 1) + 1 := by omega
        rw [hjr] at htail
        obtain ⟨u1, mv, hstepU, htail'⟩ := iterSt_succ_inv htail
        rcases hFU : firstMove (fwd ++ backCands) u.1 u.2 with _ | ⟨t', g, d⟩
        · rw [stepSt_none_of_firstMove hFU] at hstepU
          simp at hstepU
        · have hstepU' := stepSt_of_firstMove hFU
          rw [hstepU'] at hstepU
          simp only [Option.some.injEq, Prod.mk.injEq] at hstepU
          have hu1 : u1 = (t', d) := hstepU.1.symm
          have hback : firstMove backCands u.1 u.2 = some (t', g, d) := by
            rw [← firstMove_append_right hfm]
            exact hFU
          rw [hback]
          simp only
          have hstep1 : iterSt (fwd ++ backCands) (r + 1) (t, p) = some u1 := by
            rw [iterSt_add, hiterR, Option.some_bind, iterSt_one hFU, hu1]
          have hnon' : ∀ i s_i, i < j - r - 1 →
              iterSt (fwd ++ backCands) i (t', d) = some s_i → s_i.1.t2.length ≠ N := by
            intro i s_i hi hit
            refine hnon (r + 1 + i) s_i (by omega) ?_
            rw [iterSt_add, hstep1, Option.some_bind, hu1]
            exact hit
          have key := ihS (j - r - 1) (by omega) t' d (m + r + 1) f iF sEnd
            (by rw [← hu1]; exact htail') hstuck hgoal hnon' (by omega) (by omega)
          rw [key, show m + r + 1 + (j - r - 1) = m + j from by omega]
      · have hrj : r = j := by omega
        subst hrj
        rw [show r - r = 0 from by omega] at htail
        have hu := iterSt_zero_inv htail
        have hbackN : firstMove backCands u.1 u.2 = none := by
          rw [hu]
          exact (firstMove_append_none (firstMove_of_stepSt_none hstuck)).2
        rw [hbackN]
        obtain ⟨f', rfl⟩ : ∃ f', f = f' + 1 := ⟨f - 1, by omega⟩
        rw [hanoiLoop, if_pos (by rw [hu]; exact hgoal), hu]

/-- At a configuration with pegs 0 and 1 empty and previous = 2, no candidate
of a full sweep (forward then backward) can fire. -/
theorem stuck_full (fwd : List (Nat × Nat))
    (hstuckF : ∀ X p, firstMove fwd ⟨[], [], X⟩ p = none) (X : Tower) :
    stepSt (fwd ++ backCands) (⟨[], [], X⟩, 2) = none := by
  apply stepSt_none_of_firstMove
  show firstMove (fwd ++ backCands) ⟨[], [], X⟩ 2 = none
  rw [firstMove_append_right (hstuckF X 2)]
  exact stuck_back X

/-- Main correctness of the outer loop for either parity: with enough fuel it
returns the goal board and exactly `2 ^ N - 1` moves. -/
theorem hanoiLoop_master (fwd : List (Nat × Nat)) (N : Nat) (hN : 1 ≤ N)
    (hford : fwd ++ backCands = ordOf (N % 2))
    (hstuckF : ∀ X p, firstMove fwd ⟨[], [], X⟩ p = none)
    (oF iF : Nat) (hoF : 2 ^ N + 1 ≤ oF) (hiF : 2 ^ N + 1 ≤ iF) :
    hanoiLoop fwd iF oF N ⟨List.range' 1 N, [], []⟩ 2 0 =
      some (⟨[], [], List.range' 1 N⟩, 2 ^ N - 1) := by
  have h1 : 1 ≤ 2 ^ N := Nat.one_le_two_pow
  have hflat := flatRun N hN
  rw [← hford] at hflat
  have hgood : ∀ gd ∈ fwd ++ backCands, gd.1 < 3 ∧ gd.2 < 3 ∧ gd.1 ≠ gd.2 := by
    rw [hford]
    unfold ordOf
    split
    · exact goodCands_ordO
    · exact goodCands_ordE
  have hstuck2 : ∀ X : Tower, stepSt (fwd ++ backCands) (⟨[], [], X⟩, 2) = none :=
    fun X => stuck_full fwd hstuckF X
  have hnonG := nongoal hgood hstuck2 hN hflat
  have hend : stepSt (fwd ++ backCands) ((⟨[], [], List.range' 1 N⟩ : HanoiTower), 2) = none :=
    hstuck2 _
  have hgoal : ((⟨[], [], List.range' 1 N⟩ : HanoiTower), 2).1.t2.length = N := by simp
  have key := hanoiLoop_bridge fwd N (2 ^ N - 1) ⟨List.range' 1 N, [], []⟩ 2 0 oF iF
    (⟨[], [], List.range' 1 N⟩, 2) hflat hend hgoal hnonG (by omega) (by omega)
  simpa using key

/-- `Hanoi` on the initial board with `N ≥ 1` disks, run with enough fuel,
returns the goal board and exactly `2 ^ N - 1` moves. -/
theorem hanoi_master (N : Nat) (hN : 1 ≤ N) (oF iF : Nat)
    (hoF : 2 ^ N + 1 ≤ oF) (hiF : 2 ^ N + 1 ≤ iF) :
    Hanoi oF iF ⟨List.range' 1 N, [], []⟩ =
      some (⟨[], [], List.range' 1 N⟩, 2 ^ N - 1) := by
  have ht : (⟨List.range' 1 N, [], []⟩ : HanoiTower).t0.length = N := by simp
  rw [Hanoi]
  simp only [ht]
  rcases Nat.mod_two_eq_zero_or_one N with h | h
  · rw [if_neg (by omega)]
    refine hanoiLoop_master evenFwd N hN ?_ ?_ oF iF hoF hiF
    · rw [ordOf, h]
      rfl
    · intro X p
      exact stuck_fwd_even X p
  · rw [if_pos h]
    refine hanoiLoop_master oddFwd N hN ?_ ?_ oF iF hoF hiF
    · rw [ordOf, h]
      rfl
    · intro X p
      exact stuck_fwd_odd X p

/-- For either parity, a full sweep from a configuration with pegs 0 and 1
empty and previous = 2 finds no candidate. -/
theorem stuck_ordOf (par : Nat) (X : Tower) :
    stepSt (ordOf par) (⟨[], [], X⟩, 2) = none := by
  by_cases h : par = 1
  · rw [ordOf, if_pos h]
    exact stuck_full oddFwd (fun X p => stuck_fwd_odd X p) X
  · rw [ordOf, if_neg h]
    exact stuck_full evenFwd (fun X p => stuck_fwd_even X p) X

/-- Every candidate pair of the run order names two distinct pegs. -/
theorem goodCands_ordOf (par : Nat) :
    ∀ gd ∈ ordOf par, gd.1 < 3 ∧ gd.2 < 3 ∧ gd.1 ≠ gd.2 := by
  rw [ordOf]
  split
  · exact goodCands_ordO
  · exact goodCands_ordE

/-- The initial board's pegs are alternating-ascending. -/
theorem altAsc_initBoard (N : Nat) :
    AltAsc (initBoard N).t0 ∧ AltAsc (initBoard N).t1 ∧ AltAsc (initBoard N).t2 :=
  ⟨altAsc_range' 1 N, List.chain'_nil, List.chain'_nil⟩

/-! ### The claims -/

/-- Claim C1: for every disk count `N ≥ 1`, the solver — the `Hanoi` driver
started on a board with disks `1..N` on peg 0, pegs 1 and 2 empty,
`previous = 2` and `moves = 0` — terminates (returns `some` for every
sufficient fuel) and the move counter it reports equals `2 ^ N - 1`. -/
theorem C1_terminates_with_pow_moves (N : Nat) (hN : 1 ≤ N) (oF iF : Nat)
    (hoF : hanoiFuel N ≤ oF) (hiF : hanoiFuel N ≤ iF) :
    Hanoi oF iF (initBoard N) = some (⟨[], [], InitTower N⟩, 2 ^ N - 1) :=
  hanoi_master N hN oF iF hoF hiF

theorem C1_terminates_with_pow_moves_witness :
    1 ≤ 3 ∧ hanoiFuel 3 ≤ 9 ∧
      Hanoi 9 9 (initBoard 3) = some (⟨[], [], InitTower 3⟩, 2 ^ 3 - 1) :=
  ⟨by decide, by decide, C1_terminates_with_pow_moves 3 (by decide) 9 9 (by decide) (by decide)⟩

/-- Claim C2: `Move src dst` succeeds iff `src` is non-empty and, when `dst`
is non-empty, the top of `src` is strictly smaller than and of different
parity from the top of `dst`; on success the top of `src` becomes the new top
of `dst` and `true` is returned; and a non-empty pair whose tops share parity
is rejected regardless of size. -/
theorem C2_move_succeeds_iff_rules (src dst : Tower) :
    ((Move src dst).1 = true ↔
      src ≠ [] ∧ (dst ≠ [] → src.headI < dst.headI ∧ src.headI % 2 ≠ dst.headI % 2)) ∧
    ((Move src dst).1 = true → Move src dst = (true, src.tail, src.headI :: dst)) ∧
    (src ≠ [] → dst ≠ [] → src.headI % 2 = dst.headI % 2 → (Move src dst).1 = false) := by
  refine ⟨Move_succeeds_iff src dst, Move_success_result src dst, ?_⟩
  intro hs hd hpar
  cases hb : (Move src dst).1 with
  | false => rfl
  | true =>
    have h2 := ((Move_succeeds_iff src dst).mp hb).2 hd
    exact absurd hpar h2.2

/-- Claim C3: whenever `Move src dst` fails (returns `false`), neither peg is
modified: both come back exactly as they were, for every pair of peg
states. -/
theorem C3_failed_move_modifies_nothing (src dst : Tower)
    (h : (Move src dst).1 = false) : Move src dst = (false, src, dst) :=
  Move_failure_result src dst h

theorem C3_failed_move_modifies_nothing_witness :
    (Move [1] [3]).1 = false ∧ Move [1] [3] = (false, [1], [3]) :=
  ⟨by decide, C3_failed_move_modifies_nothing [1] [3] (by decide)⟩

/-- Claim C4: for every `N ≥ 1`, when the outer loop of the driver exits,
pegs 0 and 1 are empty and peg 2 holds exactly `[1, 2, …, N]` front-to-back
(smallest on top), although the exit condition only compares peg 2's size
with `N`. -/
theorem C4_final_board_goal (N : Nat) (hN : 1 ≤ N) (oF iF : Nat)
    (hoF : hanoiFuel N ≤ oF) (hiF : hanoiFuel N ≤ iF) :
    ∃ r : HanoiTower × Nat, Hanoi oF iF (initBoard N) = some r ∧
      r.1.t0 = [] ∧ r.1.t1 = [] ∧ r.1.t2 = List.range' 1 N :=
  ⟨(⟨[], [], List.range' 1 N⟩, 2 ^ N - 1), hanoi_master N hN oF iF hoF hiF, rfl, rfl, rfl⟩

theorem C4_final_board_goal_witness :
    1 ≤ 2 ∧ hanoiFuel 2 ≤ 5 ∧
      ∃ r : HanoiTower × Nat, Hanoi 5 5 (initBoard 2) = some r ∧
        r.1.t0 = [] ∧ r.1.t1 = [] ∧ r.1.t2 = List.range' 1 2 :=
  ⟨by decide, by decide, C4_final_board_goal 2 (by decide) 5 5 (by decide) (by decide)⟩

/-- Claim C5: for every `N ≥ 1`, along the run started from the initial
configuration (all disks on peg 0, `previous = 2`) the driver never reaches a
non-terminal configuration in which no guarded candidate of the combined
forward-then-backward sweep succeeds — every reachable state that does not
satisfy the exit condition admits a successful move — and consequently the
driver terminates. -/
theorem C5_never_stuck (N : Nat) (hN : 1 ≤ N) :
    (∀ i s, iterSt (ordOf (N % 2)) i (initBoard N, 2) = some s →
        s.1.t2.length ≠ N → ∃ s' mv, stepSt (ordOf (N % 2)) s = some (s', mv)) ∧
    ∃ r, Hanoi (hanoiFuel N) (hanoiFuel N) (initBoard N) = some r := by
  have hflat := flatRun N hN
  constructor
  · intro i s hiter hne
    rcases Nat.lt_or_ge i (2 ^ N - 1) with hlt | hge
    · have hsplit : 2 ^ N - 1 = i + (2 ^ N - 1 - i) := by omega
      rw [hsplit, iterSt_add] at hflat
      rw [show ((initBoard N : HanoiTower), 2) = ((⟨List.range' 1 N, [], []⟩ : HanoiTower), 2)
        from rfl] at hiter
      rw [hiter, Option.some_bind] at hflat
      rw [show 2 ^ N - 1 - i = (2 ^ N - 1 - i - 1) + 1 from by omega] at hflat
      obtain ⟨s1, mv, hstep, -⟩ := iterSt_succ_inv hflat
      exact ⟨s1, mv, hstep⟩
    · exfalso
      rw [show ((initBoard N : HanoiTower), 2) = ((⟨List.range' 1 N, [], []⟩ : HanoiTower), 2)
        from rfl] at hiter
      rw [show i = (2 ^ N - 1) + (i - (2 ^ N - 1)) from by omega, iterSt_add, hflat,
        Option.some_bind] at hiter
      rcases Nat.eq_zero_or_pos (i - (2 ^ N - 1)) with h0 | hpos
      · rw [h0] at hiter
        have hs := iterSt_zero_inv hiter
        apply hne
        rw [← hs]
        simp
      · rw [show i - (2 ^ N - 1) = (i - (2 ^ N - 1) - 1) + 1 from by omega] at hiter
        obtain ⟨s1, mv, hstep, -⟩ := iterSt_succ_inv hiter
        rw [stuck_ordOf (N % 2) (List.range' 1 N)] at hstep
        exact Option.noConfusion hstep
  · exact ⟨(⟨[], [], List.range' 1 N⟩, 2 ^ N - 1),
      hanoi_master N hN _ _ (Nat.le_refl _) (Nat.le_refl _)⟩

theorem C5_never_stuck_witness :
    1 ≤ 1 ∧ ∃ r, Hanoi (hanoiFuel 1) (hanoiFuel 1) (initBoard 1) = some r :=
  ⟨by decide, (C5_never_stuck 1 (by decide)).2⟩

/-- Claim C6: after every successful move of any run of the solver — i.e. at
every state reachable by the flattened move relation from the initial board —
each of the three pegs, read front (top) to back (bottom), is strictly
increasing. -/
theorem C6_pegs_strictly_increasing (N i : Nat) (s : HanoiTower × Nat)
    (h : iterSt (ordOf (N % 2)) i (initBoard N, 2) = some s) :
    Ascending s.1.t0 ∧ Ascending s.1.t1 ∧ Ascending s.1.t2 := by
  have hv := iterSt_valid (goodCands_ordOf (N % 2)) h (altAsc_initBoard N)
  exact ⟨altAsc_ascending hv.1.1, altAsc_ascending hv.1.2.1, altAsc_ascending hv.1.2.2⟩

theorem C6_pegs_strictly_increasing_witness :
    iterSt (ordOf (3 % 2)) 1 (initBoard 3, 2) = some (⟨[2, 3], [], [1]⟩, 2) ∧
      (Ascending [2, 3] ∧ Ascending ([] : Tower) ∧ Ascending [1]) :=
  ⟨by decide, C6_pegs_strictly_increasing 3 1 (⟨[2, 3], [], [1]⟩, 2) (by decide)⟩

/-- Claim C7: after every successful move of any run of the solver, the
multiset union of the three pegs' contents is exactly `{1, 2, …, N}`: no disk
is created, duplicated or lost. -/
theorem C7_disk_conservation (N i : Nat) (s : HanoiTower × Nat)
    (h : iterSt (ordOf (N % 2)) i (initBoard N, 2) = some s) :
    diskMultiset s.1 = (InitTower N : Multiset Nat) := by
  have hv := iterSt_valid (goodCands_ordOf (N % 2)) h (altAsc_initBoard N)
  rw [hv.2]
  simp [diskMultiset, initBoard]

theorem C7_disk_conservation_witness :
    iterSt (ordOf (3 % 2)) 2 (initBoard 3, 2) = some (⟨[3], [2], [1]⟩, 1) ∧
      diskMultiset ⟨[3], [2], [1]⟩ = (InitTower 3 : Multiset Nat) :=
  ⟨by decide, C7_disk_conservation 3 2 (⟨[3], [2], [1]⟩, 1) (by decide)⟩

/-- Claim C8: the last-moved index starts at 2 (`Hanoi` passes `previous = 2`
into the loop), after every successful move it equals the destination of that
move, and a candidate whose source equals the last-moved index is never
attempted (its guard makes the attempt fail with no effect, and the chosen
move of every step has source distinct from the current index). -/
theorem C8_last_moved_tracking :
    (∀ oF iF t, Hanoi oF iF t =
        if t.t0.length % 2 = 1 then hanoiLoop oddFwd iF oF t.t0.length t 2 0
        else hanoiLoop evenFwd iF oF t.t0.length t 2 0) ∧
    (∀ t p d, tryMove t p p d = none) ∧
    (∀ cands (s s' : HanoiTower × Nat) mv,
      stepSt cands s = some (s', mv) → s'.2 = mv.2 ∧ s.2 ≠ mv.1) := by
  refine ⟨fun oF iF t => rfl, tryMove_guard, ?_⟩
  intro cands s s' mv h
  obtain ⟨hF, hp⟩ := stepSt_some_spec h
  rcases mv with ⟨g, d⟩
  obtain ⟨-, hpg, -, -⟩ := firstMove_some_spec hF
  exact ⟨hp, hpg⟩

/-- Claim C9: for `N = 3` the solver performs exactly the moves
(0→2), (0→1), (2→1), (0→2), (1→0), (1→2), (0→2), in that order, and the
printed line is `3 disks done in 7 moves`. -/
theorem C9_three_disk_run :
    HanoiTr 9 9 (initBoard 3) =
      some (⟨[], [], [1, 2, 3]⟩, 7,
        [(0, 2), (0, 1), (2, 1), (0, 2), (1, 0), (1, 2), (0, 2)]) ∧
    outputLine 3 7 = "3 disks done in 7 moves" :=
  ⟨rfl, rfl⟩

/-- Claim C10: the CLI disk-count function returns 3 (with a notice) when no
argument is given; a present argument is parsed as a signed integer and
replaced by its absolute value, and a value below 1 triggers the notice and a
reset to 3; the argument `-5` yields count 5 and hence a run of
`2 ^ 5 - 1 = 31` moves; and the returned count is always at least 1. -/
theorem C10_disks_count_cli :
    DisksCount none = (3, true, false) ∧
    (∀ z : Int, (DisksCount (some z)).1 = if z.natAbs < 1 then 3 else z.natAbs) ∧
    (∀ z : Int, (DisksCount (some z)).2.1 = decide (z.natAbs < 1)) ∧
    (DisksCount (some (-5))).1 = 5 ∧
    Hanoi (hanoiFuel 5) (hanoiFuel 5) (initBoard (DisksCount (some (-5))).1) =
      some (⟨[], [], InitTower 5⟩, 31) ∧
    (∀ a : Option Int, 1 ≤ (DisksCount a).1) := by
  refine ⟨rfl, fun z => rfl, fun z => rfl, rfl, ?_, ?_⟩
  · have h := hanoi_master 5 (by norm_num) (hanoiFuel 5) (hanoiFuel 5)
      (Nat.le_refl _) (Nat.le_refl _)
    have h31 : 2 ^ 5 - 1 = 31 := by norm_num
    rw [h31] at h
    exact h
  · intro a
    rcases a with _ | z
    · decide
    · show 1 ≤ (DisksCount (some z)).1
      rcases hd : z.natAbs with _ | n
      · simp [DisksCount, hd]
      · simp [DisksCount, hd]

end HanoiTowers
